import Mathlib

/-!
Verification of the MESI cache-coherence simulator (mesi-emu).

Shallow embedding of the Rust sources:
  src/memory_cache.rs  — per-cache MESI state machine (MemoryCache)
  src/main_memory.rs   — main-memory agent (MainMemory)
  src/bus.rs           — broadcast bus and message types (BusMessage, Bus.run)
  src/benchmark.rs     — benchmark driver phases (benchmark)

Modelling conventions:
  - machine integers are Nat; byte blocks ([u8; 32]) are List Nat;
  - the LruCache from the lru_time_cache crate is a most-recent-first
    association list (lruLookup, lruTouch, lruUpdate, lruInsert, lruRemove);
    get and get_mut refresh recency, insert at capacity drops the
    least-recently-used entry;
  - mpsc channels are explicit lists of messages: each cache operation takes
    the backlog (messages available via try_recv) and the incoming stream
    (messages that arrive while blocking on recv) as list arguments and
    returns the messages it sent to the bus as an output list;
  - runtime panics (failed assert, failed expect) are modelled as none;
  - the f64 statistics counters are modelled as Nat (they are only ever
    incremented by 1.0 starting at 0.0, which f64 represents exactly in the
    range reachable here); the floating-point division of miss_percent is
    modelled by F64Val, which keeps the IEEE special cases 0/0 = NaN and
    x/0 = Inf for x > 0 and is exact elsewhere.
-/

/-- main_memory.rs: the size of a block of memory, in bytes. -/
def BLOCK_SIZE : Nat := 32

/-- main_memory.rs: the size of main memory, in bytes. -/
def MAIN_MEMORY_SIZE : Nat := 65536

/-- memory_cache.rs: the number of blocks a cache can hold
(CACHE_SIZE = main_memory::BLOCK_SIZE). -/
def CACHE_SIZE : Nat := BLOCK_SIZE

/-- memory_cache.rs: the number of caches to simulate. -/
def NUMBER_OF_CACHES : Nat := 8

/-- main_memory.rs: Block::for_addr, the block index of an address. -/
def Block.for_addr (addr : Nat) : Nat := addr / BLOCK_SIZE

/-- memory_cache.rs: the current MESI state of a cache line. -/
inductive MesiState where
  | Modified
  | Exclusive
  | Shared
  | Invalid
deriving DecidableEq, Repr

/-- bus.rs: who sent a response (ResponseSender). -/
inductive ResponseSender where
  | Cache
  | MainMemory
deriving DecidableEq, Repr

/-- bus.rs: the various types of messages we can send on the bus.
The data field of a response is none when the block is unavailable because
another cache holds it exclusively.  The field named from in the Rust source
is called sender here because from is reserved in Lean. -/
inductive BusMessage where
  | ReadRequest (who : Nat) (block : Nat)
  | ReadResponse (who : Nat) (sender : ResponseSender) (block : Nat)
      (data : Option (List Nat))
  | ReadExclusiveRequest (who : Nat) (block : Nat)
  | ReadExclusiveResponse (who : Nat) (block : Nat) (data : Option (List Nat))
  | WriteRequest (block : Nat) (data : List Nat)
deriving DecidableEq, Repr

/-- memory_cache.rs: a cache line is a block of data and its associated MESI
state. -/
structure CacheLine where
  state : MesiState
  data : List Nat
deriving DecidableEq, Repr

/-- memory_cache.rs: CacheLine::read_byte.  The source asserts the state is
not Invalid; a failed assert is none. -/
def CacheLine.read_byte (l : CacheLine) (addr : Nat) : Option Nat :=
  if l.state ≠ MesiState.Invalid then some (l.data.getD (addr % BLOCK_SIZE) 0)
  else none

/-- memory_cache.rs: CacheLine::write_byte.  The source asserts the state is
Modified; a failed assert is none. -/
def CacheLine.write_byte (l : CacheLine) (addr v : Nat) : Option CacheLine :=
  if l.state = MesiState.Modified then
    some { l with data := l.data.set (addr % BLOCK_SIZE) v }
  else none

/-- The cached lines: a most-recent-first association list from block index
to cache line, modelling lru_time_cache::LruCache. -/
abbrev Lines := List (Nat × CacheLine)

/-- LruCache removal of the entry with the given key (first occurrence). -/
def lruRemove (l : Lines) (b : Nat) : Lines :=
  match l with
  | [] => []
  | p :: t => if p.1 = b then t else p :: lruRemove t b

/-- LruCache lookup by key. -/
def lruLookup (l : Lines) (b : Nat) : Option CacheLine :=
  match l with
  | [] => none
  | p :: t => if p.1 = b then some p.2 else lruLookup t b

/-- LruCache get / get_mut refresh the recency of the entry: move it to the
front.  Absent keys leave the list unchanged. -/
def lruTouch (l : Lines) (b : Nat) : Lines :=
  match lruLookup l b with
  | none => l
  | some v => (b, v) :: lruRemove l b

/-- Mutation through get_mut: the entry is refreshed and its line replaced. -/
def lruUpdate (l : Lines) (b : Nat) (line : CacheLine) : Lines :=
  (b, line) :: lruRemove l b

/-- LruCache::insert with capacity CACHE_SIZE: refresh or add the entry at
the front, dropping the least-recently-used entry when at capacity. -/
def lruInsert (l : Lines) (b : Nat) (line : CacheLine) : Lines :=
  let l2 := lruRemove l b
  (b, line) :: (if l2.length = CACHE_SIZE then l2.dropLast else l2)

/-- memory_cache.rs: a memory cache.  The mpsc endpoints are modelled as
explicit message lists at each operation; miss_count and total_count are f64
in the source, modelled as Nat (see the file header). -/
structure MemoryCache where
  id : Nat
  miss_count : Nat
  total_count : Nat
  cached_lines : Lines
deriving DecidableEq, Repr

/-- memory_cache.rs: the cache state built by MemoryCache::spawn. -/
def mkCache (id : Nat) : MemoryCache :=
  { id := id, miss_count := 0, total_count := 0, cached_lines := [] }

/-- memory_cache.rs: reset_stats. -/
def MemoryCache.reset_stats (c : MemoryCache) : MemoryCache :=
  { c with miss_count := 0, total_count := 0 }

/-- memory_cache.rs: flush.  Selects every line currently Modified (the
retrieve_all of the source, filtered), then for each such line sends a
WriteRequest and removes the line, in order. -/
def MemoryCache.flush (c : MemoryCache) : MemoryCache × List BusMessage :=
  let modified := c.cached_lines.filter (fun p => p.2.state = MesiState.Modified)
  modified.foldl
    (fun acc p =>
      ({ acc.1 with cached_lines := lruRemove acc.1.cached_lines p.1 },
       acc.2 ++ [BusMessage.WriteRequest p.1 p.2.data]))
    (c, [])

/-- memory_cache.rs: empty.  Flush, then discard every line (the source
replaces the LruCache with a fresh one). -/
def MemoryCache.empty (c : MemoryCache) : MemoryCache × List BusMessage :=
  let r := MemoryCache.flush c
  ({ r.1 with cached_lines := [] }, r.2)

/-- memory_cache.rs: maybe_flush.  Flush if adding a new cache line would
drop another cache line from the cache. -/
def MemoryCache.maybe_flush (c : MemoryCache) : MemoryCache × List BusMessage :=
  if c.cached_lines.length = CACHE_SIZE then MemoryCache.flush c else (c, [])

/-- memory_cache.rs, handle_bus_message, first arm: snoop on another
cache's ReadRequest.  Exclusive or Shared lines answer with a ReadResponse
and become Shared; a Modified line first writes back, then answers, and
becomes Shared; an Invalid line is left Invalid; an absent block does
nothing. -/
def MemoryCache.snoopReadRequest (c : MemoryCache) (who blk : Nat) :
    Option (MemoryCache × List BusMessage) :=
  match lruLookup c.cached_lines blk with
  | none => some (c, [])
  | some line =>
    match line.state with
    | MesiState.Invalid =>
      some ({ c with cached_lines :=
                lruUpdate c.cached_lines blk { line with state := MesiState.Invalid } }, [])
    | MesiState.Exclusive =>
      some ({ c with cached_lines :=
                lruUpdate c.cached_lines blk { line with state := MesiState.Shared } },
            [BusMessage.ReadResponse who ResponseSender.Cache blk (some line.data)])
    | MesiState.Shared =>
      some ({ c with cached_lines :=
                lruUpdate c.cached_lines blk { line with state := MesiState.Shared } },
            [BusMessage.ReadResponse who ResponseSender.Cache blk (some line.data)])
    | MesiState.Modified =>
      some ({ c with cached_lines :=
                lruUpdate c.cached_lines blk { line with state := MesiState.Shared } },
            [BusMessage.WriteRequest blk line.data,
             BusMessage.ReadResponse who ResponseSender.Cache blk (some line.data)])

/-- memory_cache.rs, handle_bus_message, second arm: snoop on another
cache's ReadExclusiveRequest.  A Modified line writes back first; any
present line then becomes Invalid; an absent block does nothing. -/
def MemoryCache.snoopReadExclusiveRequest (c : MemoryCache) (who blk : Nat) :
    Option (MemoryCache × List BusMessage) :=
  match lruLookup c.cached_lines blk with
  | none => some (c, [])
  | some line =>
    some ({ c with cached_lines :=
              lruUpdate c.cached_lines blk { line with state := MesiState.Invalid } },
          if line.state = MesiState.Modified then [BusMessage.WriteRequest blk line.data]
          else [])

/-- memory_cache.rs, handle_bus_message, install step shared by the third
and fourth arms: maybe_flush, then insert a line with the given state and
payload. -/
def MemoryCache.installLine (c : MemoryCache) (blk : Nat) (st : MesiState)
    (d : List Nat) : MemoryCache × List BusMessage :=
  let r := MemoryCache.maybe_flush c
  ({ r.1 with cached_lines := lruInsert r.1.cached_lines blk { state := st, data := d } },
   r.2)

/-- memory_cache.rs, handle_bus_message, third arm: the state of a line
installed from a ReadResponse — Exclusive when the response came from main
memory, Shared when it came from a snooping cache. -/
def installState (sender : ResponseSender) : MesiState :=
  match sender with
  | ResponseSender.MainMemory => MesiState.Exclusive
  | ResponseSender.Cache => MesiState.Shared

/-- memory_cache.rs, handle_bus_message, third arm: a ReadResponse for this
cache carrying data.  If a valid copy already exists the source asserts the
sender is MainMemory (failed assert is none) and ignores the message;
otherwise maybe_flush and install a new line.  get_mut refreshes the
recency of the looked-up entry in both paths. -/
def MemoryCache.handleOwnReadResponse (c : MemoryCache) (sender : ResponseSender)
    (blk : Nat) (d : List Nat) : Option (MemoryCache × List BusMessage) :=
  match lruLookup c.cached_lines blk with
  | some cached =>
    if cached.state ≠ MesiState.Invalid then
      if sender = ResponseSender.MainMemory then
        some ({ c with cached_lines := lruTouch c.cached_lines blk }, [])
      else none
    else
      some (MemoryCache.installLine { c with cached_lines := lruTouch c.cached_lines blk }
        blk (installState sender) d)
  | none =>
    some (MemoryCache.installLine { c with cached_lines := lruTouch c.cached_lines blk }
      blk (installState sender) d)

/-- memory_cache.rs, handle_bus_message, fourth arm: a ReadExclusiveResponse
for this cache carrying data: maybe_flush, then install the line Modified. -/
def MemoryCache.handleOwnReadExclusiveResponse (c : MemoryCache) (blk : Nat)
    (d : List Nat) : Option (MemoryCache × List BusMessage) :=
  some (MemoryCache.installLine c blk MesiState.Modified d)

/-- memory_cache.rs, handle_bus_message, fifth arm: snoop on a data-carrying
ReadResponse for another cache: demote a local Exclusive copy to Shared
(get_mut refreshes recency either way). -/
def MemoryCache.snoopPeerReadResponse (c : MemoryCache) (blk : Nat) :
    Option (MemoryCache × List BusMessage) :=
  match lruLookup c.cached_lines blk with
  | none => some (c, [])
  | some line =>
    let st := if line.state = MesiState.Exclusive then MesiState.Shared else line.state
    some ({ c with cached_lines := lruUpdate c.cached_lines blk { line with state := st } }, [])

/-- memory_cache.rs: handle_bus_message.  The arms appear in source order;
the trailing arms for requests with who = self and for responses not meant
for this cache only assert sanity conditions that hold by the branch
conditions here, and ignore the message.  WriteRequests are ignored. -/
def MemoryCache.handle_bus_message (c : MemoryCache) (m : BusMessage) :
    Option (MemoryCache × List BusMessage) :=
  match m with
  | BusMessage.ReadRequest who blk =>
    -- arm 6 asserts who = c.id, which holds in its branch
    if who = c.id then some (c, []) else MemoryCache.snoopReadRequest c who blk
  | BusMessage.ReadExclusiveRequest who blk =>
    if who = c.id then some (c, []) else MemoryCache.snoopReadExclusiveRequest c who blk
  | BusMessage.ReadResponse who sender blk data =>
    match data with
    | some d =>
      if who = c.id then MemoryCache.handleOwnReadResponse c sender blk d
      else MemoryCache.snoopPeerReadResponse c blk
    -- arm 7 asserts who ≠ c.id or data = none, which holds: data = none
    | none => some (c, [])
  | BusMessage.ReadExclusiveResponse who blk data =>
    match data with
    | some d =>
      if who = c.id then MemoryCache.handleOwnReadExclusiveResponse c blk d
      -- arm 7 assert: who ≠ c.id holds here
      else some (c, [])
    | none => some (c, [])
  | BusMessage.WriteRequest _ _ => some (c, [])

/-- memory_cache.rs: snoop_backlog — handle every message available without
blocking (the backlog list), accumulating the messages sent to the bus. -/
def MemoryCache.snoop_backlog (c : MemoryCache) :
    List BusMessage → Option (MemoryCache × List BusMessage)
  | [] => some (c, [])
  | m :: rest =>
    match MemoryCache.handle_bus_message c m with
    | none => none
    | some (c1, out) =>
      (MemoryCache.snoop_backlog c1 rest).map (fun r => (r.1, out ++ r.2))

/-- memory_cache.rs: snoop_until — block on the incoming stream, handling
each message, until the predicate holds of a message (which is handled
first, as in the source).  Returns the new state, the messages sent, and
the unread remainder of the stream; none models blocking forever on an
exhausted stream or a panic while handling. -/
def MemoryCache.snoop_until (c : MemoryCache) (p : BusMessage → Bool) :
    List BusMessage → Option (MemoryCache × List BusMessage × List BusMessage)
  | [] => none
  | m :: rest =>
    match MemoryCache.handle_bus_message c m with
    | none => none
    | some (c1, out) =>
      if p m then some (c1, out, rest)
      else (MemoryCache.snoop_until c1 p rest).map (fun r => (r.1, out ++ r.2.1, r.2.2))

/-- memory_cache.rs: the retry loop of read.  Each iteration emits a
ReadRequest, snoops until the matching ReadResponse, and returns the byte
if the line is now present and valid; fuel bounds the retries we observe
(the source loop is unbounded). -/
def MemoryCache.readLoop (c : MemoryCache) (target addr : Nat) :
    Nat → List BusMessage → Option (Nat × MemoryCache × List BusMessage × List BusMessage)
  | 0, _ => none
  | Nat.succ fuel, incoming =>
    match MemoryCache.snoop_until c
        (fun m => match m with
          | BusMessage.ReadResponse who _ blk _ => who == c.id && blk == target
          | _ => false) incoming with
    | none => none
    | some (c1, out, rest) =>
      let c2 := { c1 with cached_lines := lruTouch c1.cached_lines target }
      match lruLookup c1.cached_lines target with
      | some line =>
        if line.state ≠ MesiState.Invalid then
          match line.read_byte addr with
          | some b => some (b, c2, BusMessage.ReadRequest c.id target :: out, rest)
          | none => none
        else
          (MemoryCache.readLoop c2 target addr fuel rest).map
            (fun r => (r.1, r.2.1, BusMessage.ReadRequest c.id target :: out ++ r.2.2.1, r.2.2.2))
      | none =>
        (MemoryCache.readLoop c2 target addr fuel rest).map
          (fun r => (r.1, r.2.1, BusMessage.ReadRequest c.id target :: out ++ r.2.2.1, r.2.2.2))

/-- memory_cache.rs: read.  Counts the access, drains the backlog, returns
the byte on a valid hit (get refreshes recency), and otherwise counts a
miss and enters the retry loop over the incoming stream. -/
def MemoryCache.read (c : MemoryCache) (backlog incoming : List BusMessage)
    (fuel addr : Nat) : Option (Nat × MemoryCache × List BusMessage × List BusMessage) :=
  let c1 := { c with total_count := c.total_count + 1 }
  match MemoryCache.snoop_backlog c1 backlog with
  | none => none
  | some (c2, out0) =>
    let target := Block.for_addr addr
    let c3 := { c2 with cached_lines := lruTouch c2.cached_lines target }
    match lruLookup c2.cached_lines target with
    | some line =>
      if line.state ≠ MesiState.Invalid then
        match line.read_byte addr with
        | some b => some (b, c3, out0, incoming)
        | none => none
      else
        (MemoryCache.readLoop { c3 with miss_count := c3.miss_count + 1 } target addr
            fuel incoming).map
          (fun r => (r.1, r.2.1, out0 ++ r.2.2.1, r.2.2.2))
    | none =>
      (MemoryCache.readLoop { c3 with miss_count := c3.miss_count + 1 } target addr
          fuel incoming).map
        (fun r => (r.1, r.2.1, out0 ++ r.2.2.1, r.2.2.2))

/-- memory_cache.rs: the retry loop of write.  Each iteration emits a
ReadExclusiveRequest, snoops until the matching ReadExclusiveResponse, and
stores the byte if the line is now present and Modified. -/
def MemoryCache.writeLoop (c : MemoryCache) (target addr v : Nat) :
    Nat → List BusMessage → Option (MemoryCache × List BusMessage × List BusMessage)
  | 0, _ => none
  | Nat.succ fuel, incoming =>
    match MemoryCache.snoop_until c
        (fun m => match m with
          | BusMessage.ReadExclusiveResponse who blk _ => who == c.id && blk == target
          | _ => false) incoming with
    | none => none
    | some (c1, out, rest) =>
      let c2 := { c1 with cached_lines := lruTouch c1.cached_lines target }
      match lruLookup c1.cached_lines target with
      | some line =>
        if line.state = MesiState.Modified then
          match CacheLine.write_byte line addr v with
          | some line2 =>
            some ({ c1 with cached_lines := lruUpdate c1.cached_lines target line2 },
                  BusMessage.ReadExclusiveRequest c.id target :: out, rest)
          | none => none
        else
          (MemoryCache.writeLoop c2 target addr v fuel rest).map
            (fun r => (r.1, BusMessage.ReadExclusiveRequest c.id target :: out ++ r.2.1, r.2.2))
      | none =>
        (MemoryCache.writeLoop c2 target addr v fuel rest).map
          (fun r => (r.1, BusMessage.ReadExclusiveRequest c.id target :: out ++ r.2.1, r.2.2))

/-- memory_cache.rs: write.  Counts the access, drains the backlog; on a
present line: Modified or Exclusive lines silently become Modified and store
the byte; Shared lines emit one ReadExclusiveRequest, become Modified and
store the byte without awaiting the response; Invalid lines (and absent
blocks) count a miss and enter the retry loop. -/
def MemoryCache.write (c : MemoryCache) (backlog incoming : List BusMessage)
    (fuel addr v : Nat) : Option (MemoryCache × List BusMessage × List BusMessage) :=
  let c1 := { c with total_count := c.total_count + 1 }
  match MemoryCache.snoop_backlog c1 backlog with
  | none => none
  | some (c2, out0) =>
    let target := Block.for_addr addr
    match lruLookup c2.cached_lines target with
    | some line =>
      match line.state with
      | MesiState.Modified =>
        match CacheLine.write_byte { line with state := MesiState.Modified } addr v with
        | some line2 =>
          some ({ c2 with cached_lines := lruUpdate c2.cached_lines target line2 },
                out0, incoming)
        | none => none
      | MesiState.Exclusive =>
        match CacheLine.write_byte { line with state := MesiState.Modified } addr v with
        | some line2 =>
          some ({ c2 with cached_lines := lruUpdate c2.cached_lines target line2 },
                out0, incoming)
        | none => none
      | MesiState.Shared =>
        match CacheLine.write_byte { line with state := MesiState.Modified } addr v with
        | some line2 =>
          some ({ c2 with cached_lines := lruUpdate c2.cached_lines target line2 },
                out0 ++ [BusMessage.ReadExclusiveRequest c2.id target], incoming)
        | none => none
      | MesiState.Invalid =>
        (MemoryCache.writeLoop
            { c2 with cached_lines := lruTouch c2.cached_lines target,
                      miss_count := c2.miss_count + 1 } target addr v fuel incoming).map
          (fun r => (r.1, out0 ++ r.2.1, r.2.2))
    | none =>
      (MemoryCache.writeLoop { c2 with miss_count := c2.miss_count + 1 } target addr v
          fuel incoming).map
        (fun r => (r.1, out0 ++ r.2.1, r.2.2))

/-- Abstraction of an f64 value for miss_percent: NaN, infinity, or an exact
rational.  Division of the Nat counters follows IEEE semantics at the
special points (0/0 is NaN, x/0 with x positive is Inf) and is exact
elsewhere; rounding is immaterial to the stated range properties because a
quotient of counters with miss ≤ total lies in [0,1], whose f64 rounding
stays in [0,1], and likewise for the product with 100. -/
inductive F64Val where
  | nan
  | inf
  | val (q : ℚ)
deriving DecidableEq

/-- f64 division of the two Nat-valued counters. -/
def fdivNat (m t : Nat) : F64Val :=
  if t = 0 then (if m = 0 then F64Val.nan else F64Val.inf)
  else F64Val.val ((m : ℚ) / (t : ℚ))

/-- f64 multiplication by 100.0 (NaN and Inf propagate). -/
def fmul100 : F64Val → F64Val
  | F64Val.nan => F64Val.nan
  | F64Val.inf => F64Val.inf
  | F64Val.val q => F64Val.val (q * 100)

/-- Whether an f64 value is a number in the range [0, 100] (NaN and Inf are
not). -/
def F64Val.inRange100 : F64Val → Bool
  | F64Val.val q => decide (0 ≤ q ∧ q ≤ 100)
  | _ => false

/-- memory_cache.rs: miss_percent — asserts miss_count ≤ total_count (a
failed assert is none) and returns (miss_count / total_count) * 100. -/
def MemoryCache.miss_percent (c : MemoryCache) : Option F64Val :=
  if c.miss_count ≤ c.total_count then
    some (fmul100 (fdivNat c.miss_count c.total_count))
  else none

/-- main_memory.rs: the main memory.  The byte array is a function from
address to byte, the per-block bit vector named modified is a function from
block index to Bool (BitVec::get out of range yields false via unwrap_or;
theorems about the agent therefore carry the in-range hypothesis
block < MAIN_MEMORY_SIZE / BLOCK_SIZE under which set is also in range). -/
structure MainMemory where
  modified : Nat → Bool
  data : Nat → Nat

/-- main_memory.rs: the state built by MainMemory::spawn — all bits clear,
all bytes zero. -/
def MainMemory.init : MainMemory :=
  { modified := fun _ => false, data := fun _ => 0 }

/-- The bytes of a block: data[block * BLOCK_SIZE .. (block+1) * BLOCK_SIZE). -/
def blockBytes (d : Nat → Nat) (b : Nat) : List Nat :=
  (List.range BLOCK_SIZE).map (fun i => d (b * BLOCK_SIZE + i))

/-- main_memory.rs: clone_from_slice of a WriteRequest payload into the
address range of a block (the source requires the payload length to equal
BLOCK_SIZE; theorems carry that hypothesis). -/
def writeBlock (d : Nat → Nat) (b : Nat) (bytes : List Nat) : Nat → Nat :=
  fun a =>
    if b * BLOCK_SIZE ≤ a ∧ a < (b + 1) * BLOCK_SIZE then bytes.getD (a - b * BLOCK_SIZE) 0
    else d a

/-- main_memory.rs: one iteration of MainMemory::run — handle a received bus
message, returning the new state and the responses sent.  The 100 microsecond
sleep is timing only.  Response messages are ignored. -/
def MainMemory.step (mem : MainMemory) (m : BusMessage) : MainMemory × List BusMessage :=
  match m with
  | BusMessage.ReadRequest who blk =>
    let d := if mem.modified blk then none else some (blockBytes mem.data blk)
    (mem, [BusMessage.ReadResponse who ResponseSender.MainMemory blk d])
  | BusMessage.ReadExclusiveRequest who blk =>
    if mem.modified blk then (mem, [BusMessage.ReadExclusiveResponse who blk none])
    else
      ({ mem with modified := fun b => if b = blk then true else mem.modified b },
       [BusMessage.ReadExclusiveResponse who blk (some (blockBytes mem.data blk))])
  | BusMessage.WriteRequest blk bytes =>
    ({ modified := fun b => if b = blk then false else mem.modified b,
       data := writeBlock mem.data blk bytes }, [])
  | BusMessage.ReadResponse _ _ _ _ => (mem, [])
  | BusMessage.ReadExclusiveResponse _ _ _ => (mem, [])

/-- bus.rs: the ignore helper — discards a value (in the source, the result
of a send to an outbound endpoint). -/
def ignore {α : Type} (_ : α) : Unit := ()

/-- A send into a channel whose result is checked with expect: a failed send
(Except.error, the receiver has died) is a fatal panic, modelled none.  This
is the pattern of every send in memory_cache.rs and main_memory.rs. -/
def sendExpect (r : Except Unit Unit) : Option Unit :=
  match r with
  | Except.ok u => some u
  | Except.error _ => none

/-- bus.rs: Bus::run — forward every incoming message to every outbound
endpoint, discarding each send result with ignore.  An endpoint is a send
function that can fail; the run aborts (none) only if some step panics,
which the body never does because ignore discards the result. -/
def Bus.run (outgoing : List (BusMessage → Except Unit Unit))
    (incoming : List BusMessage) : Option Unit :=
  incoming.foldl
    (fun acc msg =>
      acc.bind (fun _ => outgoing.foldl (fun st out => st.map (fun _ => ignore (out msg))) (some ())))
    (some ())

/-- benchmark.rs: the phases the benchmark driver actually executes, in
order: each entry is the list of accesses of the phase together with the
phase name passed to synchronize_phase on its completion.  An access is a
read of an address or a write of the cache id to an address.  The Random
Read and Random Write phases of the source are commented out, as are the
later Address(0)/Address(id) phases, so they do not appear. -/
inductive Access where
  | read (addr : Nat)
  | write (addr : Nat) (v : Nat)
deriving DecidableEq, Repr

/-- benchmark.rs: chunk_size = CACHE_SIZE * BLOCK_SIZE. -/
def chunk_size : Nat := CACHE_SIZE * BLOCK_SIZE

/-- benchmark.rs: benchmark — the executed phases of the driver for the
cache with the given id, in source order.  Each phase is (accesses, name). -/
def benchmark (id : Nat) : List (List Access × String) :=
  [ ((List.range MAIN_MEMORY_SIZE).map (fun i => Access.read i), "Sequential Read"),
    ((List.range MAIN_MEMORY_SIZE).map (fun i => Access.write i id), "Sequential Write"),
    ((List.range MAIN_MEMORY_SIZE).map
        (fun i => Access.read (id * chunk_size + i % chunk_size)), "Thread-Unique Chunk Read"),
    ((List.range MAIN_MEMORY_SIZE).map
        (fun i => Access.write (id * chunk_size + i % chunk_size) id), "Thread-Unique Chunk Write"),
    ((List.range MAIN_MEMORY_SIZE).map
        (fun i => Access.read (i % chunk_size)), "Shared Chunk Read"),
    ((List.range MAIN_MEMORY_SIZE).map
        (fun i => Access.write (i % chunk_size) id), "Shared Chunk Write"),
    ((List.range MAIN_MEMORY_SIZE).map
        (fun i => Access.write (i * id % chunk_size) id), "False-Sharing Chunk Write") ]

/-- The phase names the driver reports, in order. -/
def benchmarkPhases (id : Nat) : List String := (benchmark id).map (fun p => p.2)

/-- Cache states reachable from spawn by the program-facing operations and
the bus-message handler, with arbitrary message lists and fuel. -/
inductive Reach : MemoryCache → Prop where
  | init (id : Nat) : Reach (mkCache id)
  | handle {c c1 : MemoryCache} {m : BusMessage} {out : List BusMessage} :
      Reach c → MemoryCache.handle_bus_message c m = some (c1, out) → Reach c1
  | flush_step {c : MemoryCache} : Reach c → Reach (MemoryCache.flush c).1
  | empty_step {c : MemoryCache} : Reach c → Reach (MemoryCache.empty c).1
  | reset_step {c : MemoryCache} : Reach c → Reach (MemoryCache.reset_stats c)
  | read_step {c c1 : MemoryCache} {backlog incoming out rest : List BusMessage}
      {fuel addr b : Nat} :
      Reach c → MemoryCache.read c backlog incoming fuel addr = some (b, c1, out, rest) →
      Reach c1
  | write_step {c c1 : MemoryCache} {backlog incoming out rest : List BusMessage}
      {fuel addr v : Nat} :
      Reach c → MemoryCache.write c backlog incoming fuel addr v = some (c1, out, rest) →
      Reach c1

/-- A block of 32 zero bytes (the initial content of every block of main
memory). -/
def z32 : List Nat := List.replicate 32 0

/-- Trace state: cache 0 after its first read of address 0 served by main
memory (line 0 Exclusive, one miss of one access). -/
def cA1 : MemoryCache :=
  { id := 0, miss_count := 1, total_count := 1,
    cached_lines := [(0, { state := MesiState.Exclusive, data := z32 })] }

/-- Trace state: cache 1 after its read of address 0 was served by main
memory before cache 0 snooped the request (line 0 Exclusive). -/
def cB1 : MemoryCache :=
  { id := 1, miss_count := 1, total_count := 1,
    cached_lines := [(0, { state := MesiState.Exclusive, data := z32 })] }

/-- Trace state: cache 0 after draining its backlog (responding to cache 1
and demoting line 0 to Shared) and reading address 64. -/
def cA2 : MemoryCache :=
  { id := 0, miss_count := 2, total_count := 2,
    cached_lines := [(2, { state := MesiState.Exclusive, data := z32 }),
                     (0, { state := MesiState.Shared, data := z32 })] }

/-- Witness input: a cache holding block 5 Modified. -/
def c1w : MemoryCache :=
  { id := 0, miss_count := 0, total_count := 0,
    cached_lines := [(5, { state := MesiState.Modified, data := z32 })] }

/-- Witness input: a cache holding block 1 Shared. -/
def cw3 : MemoryCache :=
  { id := 0, miss_count := 0, total_count := 0,
    cached_lines := [(1, { state := MesiState.Shared, data := z32 })] }

/-- Witness input: a cache holding block 3 Modified and block 4 Exclusive. -/
def c5w : MemoryCache :=
  { id := 2, miss_count := 0, total_count := 0,
    cached_lines := [(3, { state := MesiState.Modified, data := z32 }),
                     (4, { state := MesiState.Exclusive, data := z32 })] }

/-- Witness input: a cache at capacity, holding block 0 Modified and blocks
1 to 31 Exclusive. -/
def c6w : MemoryCache :=
  { id := 7, miss_count := 0, total_count := 0,
    cached_lines := (0, { state := MesiState.Modified, data := z32 }) ::
      (List.range 31).map (fun i => (i + 1, { state := MesiState.Exclusive, data := z32 })) }

/-- Witness input: a reachable cache state with one access counted (equal to
the state reached by one read of address 0 from spawn, served by main
memory). -/
def c9w : MemoryCache :=
  { id := 0, miss_count := 1, total_count := 1,
    cached_lines := [(0, { state := MesiState.Exclusive, data := z32 })] }

/-- The key of a cache entry. -/
def lineKey (p : Nat × CacheLine) : Nat := p.1

theorem lruLookup_update_self (l : Lines) (b : Nat) (line : CacheLine) :
    lruLookup (lruUpdate l b line) b = some line := by
  simp [lruLookup, lruUpdate]

theorem lruRemove_length_le (l : Lines) (b : Nat) :
    (lruRemove l b).length ≤ l.length := by
  induction l with
  | nil => simp [lruRemove]
  | cons p t ih =>
    by_cases h : p.1 = b
    · simp [lruRemove, h]
    · simp only [lruRemove, if_neg h, List.length_cons]
      exact Nat.succ_le_succ ih

theorem lruRemove_length_of_lookup (l : Lines) (b : Nat) (v : CacheLine)
    (h : lruLookup l b = some v) : (lruRemove l b).length + 1 = l.length := by
  induction l with
  | nil => simp [lruLookup] at h
  | cons p t ih =>
    by_cases hp : p.1 = b
    · simp [lruRemove, hp]
    · simp only [lruLookup, if_neg hp] at h
      simp only [lruRemove, if_neg hp, List.length_cons]
      exact congrArg Nat.succ (ih h)

theorem lruTouch_length (l : Lines) (b : Nat) :
    (lruTouch l b).length = l.length := by
  unfold lruTouch
  cases h : lruLookup l b with
  | none => rfl
  | some v => simpa using lruRemove_length_of_lookup l b v h

theorem lruUpdate_length_of_lookup (l : Lines) (b : Nat) (v x : CacheLine)
    (h : lruLookup l b = some v) : (lruUpdate l b x).length = l.length := by
  simpa [lruUpdate] using lruRemove_length_of_lookup l b v h

theorem lruInsert_length_le (l : Lines) (b : Nat) (x : CacheLine)
    (h : l.length ≤ CACHE_SIZE) : (lruInsert l b x).length ≤ CACHE_SIZE := by
  show ((b, x) ::
      if (lruRemove l b).length = CACHE_SIZE then (lruRemove l b).dropLast
      else lruRemove l b).length ≤ CACHE_SIZE
  by_cases hc : (lruRemove l b).length = CACHE_SIZE
  · rw [if_pos hc]
    have hd : (lruRemove l b).dropLast.length = CACHE_SIZE - 1 := by
      rw [List.length_dropLast, hc]
    simp only [List.length_cons, hd]
    have h32 : CACHE_SIZE = 32 := rfl
    omega
  · rw [if_neg hc]
    simp only [List.length_cons]
    have := lruRemove_length_le l b
    omega

theorem mem_cons_remove (l : Lines) (b : Nat) (v : CacheLine) (p : Nat × CacheLine)
    (h : lruLookup l b = some v) (hp : p ∈ l) : p = (b, v) ∨ p ∈ lruRemove l b := by
  induction l with
  | nil => simp at hp
  | cons q t ih =>
    by_cases hq : q.1 = b
    · simp only [lruLookup, if_pos hq] at h
      rcases List.mem_cons.mp hp with h1 | h1
      · left
        have : q = (q.1, q.2) := rfl
        rw [h1, this, hq, Option.some_inj.mp h]
      · right
        simpa [lruRemove, hq] using h1
    · simp only [lruLookup, if_neg hq] at h
      rcases List.mem_cons.mp hp with h1 | h1
      · right
        simp [lruRemove, hq, h1]
      · rcases ih h h1 with h2 | h2
        · exact Or.inl h2
        · right
          simp [lruRemove, hq, h2]

theorem mem_lruTouch_of_mem (l : Lines) (b : Nat) (p : Nat × CacheLine)
    (hp : p ∈ l) : p ∈ lruTouch l b := by
  unfold lruTouch
  cases h : lruLookup l b with
  | none => exact hp
  | some v =>
    rcases mem_cons_remove l b v p h hp with h1 | h1
    · simp [h1]
    · simp [h1]

theorem mem_lruUpdate_of_mem (l : Lines) (b : Nat) (v x : CacheLine)
    (p : Nat × CacheLine) (h : lruLookup l b = some v) (hp : p ∈ l) :
    p ∈ lruUpdate l b x ∨ p = (b, v) := by
  rcases mem_cons_remove l b v p h hp with h1 | h1
  · exact Or.inr h1
  · exact Or.inl (by simp [lruUpdate, h1])

theorem flushFold_out (ms : Lines) (c0 : MemoryCache) (acc : List BusMessage) :
    (ms.foldl
      (fun acc p =>
        ({ acc.1 with cached_lines := lruRemove acc.1.cached_lines p.1 },
         acc.2 ++ [BusMessage.WriteRequest p.1 p.2.data]))
      (c0, acc)).2 = acc ++ ms.map (fun p => BusMessage.WriteRequest p.1 p.2.data) := by
  induction ms generalizing c0 acc with
  | nil => simp
  | cons p t ih => simp [List.foldl_cons, ih]

theorem flushFold_fields (ms : Lines) (c0 : MemoryCache) (acc : List BusMessage) :
    (ms.foldl
      (fun acc p =>
        ({ acc.1 with cached_lines := lruRemove acc.1.cached_lines p.1 },
         acc.2 ++ [BusMessage.WriteRequest p.1 p.2.data]))
      (c0, acc)).1.miss_count = c0.miss_count ∧
    (ms.foldl
      (fun acc p =>
        ({ acc.1 with cached_lines := lruRemove acc.1.cached_lines p.1 },
         acc.2 ++ [BusMessage.WriteRequest p.1 p.2.data]))
      (c0, acc)).1.total_count = c0.total_count ∧
    (ms.foldl
      (fun acc p =>
        ({ acc.1 with cached_lines := lruRemove acc.1.cached_lines p.1 },
         acc.2 ++ [BusMessage.WriteRequest p.1 p.2.data]))
      (c0, acc)).1.id = c0.id := by
  induction ms generalizing c0 acc with
  | nil => simp
  | cons p t ih => simpa [List.foldl_cons] using ih _ _

theorem flushFold_lines (ms : Lines) (c0 : MemoryCache) (acc : List BusMessage) :
    (ms.foldl
      (fun acc p =>
        ({ acc.1 with cached_lines := lruRemove acc.1.cached_lines p.1 },
         acc.2 ++ [BusMessage.WriteRequest p.1 p.2.data]))
      (c0, acc)).1.cached_lines =
    ms.foldl (fun L p => lruRemove L p.1) c0.cached_lines := by
  induction ms generalizing c0 acc with
  | nil => simp
  | cons p t ih => simpa [List.foldl_cons] using ih _ _

theorem removeAll_le (ms : Lines) (l : Lines) :
    (ms.foldl (fun L p => lruRemove L p.1) l).length ≤ l.length := by
  induction ms generalizing l with
  | nil => simp
  | cons p t ih =>
    calc (t.foldl (fun L p => lruRemove L p.1) (lruRemove l p.1)).length
        ≤ (lruRemove l p.1).length := ih _
      _ ≤ l.length := lruRemove_length_le l p.1

theorem removeAll_cons (ms : Lines) (q : Nat × CacheLine) (t : Lines)
    (h : ∀ p ∈ ms, p.1 ≠ q.1) :
    ms.foldl (fun L p => lruRemove L p.1) (q :: t) =
      q :: ms.foldl (fun L p => lruRemove L p.1) t := by
  induction ms generalizing t with
  | nil => simp
  | cons p ms' ih =>
    have hp : p.1 ≠ q.1 := h p (List.mem_cons_self p ms')
    have hq : ¬ q.1 = p.1 := fun he => hp he.symm
    simp only [List.foldl_cons, lruRemove, if_neg hq]
    exact ih (lruRemove t p.1) (fun r hr => h r (List.mem_cons_of_mem p hr))

theorem removeAll_filter (P : Nat × CacheLine → Bool) (l : Lines)
    (h : (l.map Prod.fst).Nodup) :
    (l.filter P).foldl (fun L p => lruRemove L p.1) l = l.filter (fun p => ! P p) := by
  induction l with
  | nil => simp
  | cons q t ih =>
    have hnd : (t.map Prod.fst).Nodup := (List.nodup_cons.mp (by simpa using h)).2
    have hnm : q.1 ∉ t.map Prod.fst := (List.nodup_cons.mp (by simpa using h)).1
    have hkeys : ∀ p ∈ t.filter P, p.1 ≠ q.1 := by
      intro p hp he
      exact hnm (he ▸ List.mem_map_of_mem Prod.fst (List.mem_of_mem_filter hp))
    by_cases hq : P q = true
    · rw [show List.filter P (q :: t) = q :: List.filter P t from by
          simp [List.filter_cons, hq]]
      rw [List.foldl_cons]
      rw [show lruRemove (q :: t) q.1 = t from by simp [lruRemove]]
      rw [ih hnd]
      simp [List.filter_cons, hq]
    · have hq' : P q = false := by simpa using hq
      rw [show List.filter P (q :: t) = List.filter P t from by
          simp [List.filter_cons, hq']]
      rw [removeAll_cons _ q t hkeys, ih hnd]
      simp [List.filter_cons, hq']

theorem flush_out (c : MemoryCache) :
    (MemoryCache.flush c).2 =
      (c.cached_lines.filter (fun p => p.2.state = MesiState.Modified)).map
        (fun p => BusMessage.WriteRequest p.1 p.2.data) := by
  unfold MemoryCache.flush
  simpa using flushFold_out _ c []

theorem flush_counters (c : MemoryCache) :
    (MemoryCache.flush c).1.miss_count = c.miss_count ∧
    (MemoryCache.flush c).1.total_count = c.total_count ∧
    (MemoryCache.flush c).1.id = c.id := by
  unfold MemoryCache.flush
  exact flushFold_fields _ c []

theorem flush_lines (c : MemoryCache) :
    (MemoryCache.flush c).1.cached_lines =
      (c.cached_lines.filter (fun p => p.2.state = MesiState.Modified)).foldl
        (fun L p => lruRemove L p.1) c.cached_lines := by
  unfold MemoryCache.flush
  exact flushFold_lines _ c []

theorem flush_len_le (c : MemoryCache) :
    (MemoryCache.flush c).1.cached_lines.length ≤ c.cached_lines.length := by
  rw [flush_lines]
  exact removeAll_le _ _

theorem flush_lines_nodup (c : MemoryCache)
    (h : (c.cached_lines.map Prod.fst).Nodup) :
    (MemoryCache.flush c).1.cached_lines =
      c.cached_lines.filter (fun p => ¬ p.2.state = MesiState.Modified) := by
  rw [flush_lines, removeAll_filter _ _ h]
  simp [decide_not]

theorem flush_mem_out (c : MemoryCache) (p : Nat × CacheLine)
    (hp : p ∈ c.cached_lines) (hm : p.2.state = MesiState.Modified) :
    BusMessage.WriteRequest p.1 p.2.data ∈ (MemoryCache.flush c).2 := by
  rw [flush_out]
  exact List.mem_map_of_mem _ (List.mem_filter.mpr ⟨hp, by simp [hm]⟩)

theorem flush_no_modified (c : MemoryCache)
    (h : (c.cached_lines.map Prod.fst).Nodup) :
    ∀ p ∈ (MemoryCache.flush c).1.cached_lines, ¬ p.2.state = MesiState.Modified := by
  intro p hp
  rw [flush_lines_nodup c h] at hp
  simpa using (List.mem_filter.mp hp).2

theorem flush_flush (c : MemoryCache)
    (h : (c.cached_lines.map Prod.fst).Nodup) :
    MemoryCache.flush (MemoryCache.flush c).1 = ((MemoryCache.flush c).1, []) := by
  have hnil : (MemoryCache.flush c).1.cached_lines.filter
      (fun p => p.2.state = MesiState.Modified) = [] := by
    rw [flush_lines_nodup c h]
    rw [List.filter_filter]
    apply List.filter_eq_nil.mpr
    intro p _
    by_cases hm : p.2.state = MesiState.Modified <;> simp [hm]
  conv_lhs => rw [MemoryCache.flush]
  rw [hnil]
  rfl

theorem line_eta (line : CacheLine) : { line with state := line.state } = line := by
  cases line
  rfl

theorem snoopRR_inv (c : MemoryCache) (who blk : Nat) (c1 : MemoryCache)
    (out : List BusMessage)
    (h : MemoryCache.snoopReadRequest c who blk = some (c1, out)) :
    c1.miss_count = c.miss_count ∧ c1.total_count = c.total_count ∧ c1.id = c.id ∧
    c1.cached_lines.length = c.cached_lines.length ∧
    (∀ p ∈ c.cached_lines, p.2.state = MesiState.Modified →
      p ∈ c1.cached_lines ∨ BusMessage.WriteRequest p.1 p.2.data ∈ out) := by
  unfold MemoryCache.snoopReadRequest at h
  split at h
  case h_1 hlk =>
    cases h
    exact ⟨rfl, rfl, rfl, rfl, fun p hp _ => Or.inl hp⟩
  case h_2 line hlk =>
    split at h <;>
      (simp only [Option.some.injEq, Prod.mk.injEq] at h
       obtain ⟨h1, h2⟩ := h
       subst h1
       subst h2) <;>
      refine ⟨rfl, rfl, rfl, lruUpdate_length_of_lookup _ _ _ _ hlk, ?_⟩ <;>
      intro p hp hm <;>
      rcases mem_lruUpdate_of_mem _ blk line _ p hlk hp with hin | hpe
    case h_1 hst => exact Or.inl hin
    case h_1 hst =>
      rw [hpe] at hm
      rw [hst] at hm
      exact absurd hm (by simp)
    case h_2 hst => exact Or.inl hin
    case h_2 hst =>
      rw [hpe] at hm
      rw [hst] at hm
      exact absurd hm (by simp)
    case h_3 hst => exact Or.inl hin
    case h_3 hst =>
      rw [hpe] at hm
      rw [hst] at hm
      exact absurd hm (by simp)
    case h_4 hst => exact Or.inl hin
    case h_4 hst =>
      right
      rw [hpe]
      simp

theorem snoopRdX_inv (c : MemoryCache) (who blk : Nat) (c1 : MemoryCache)
    (out : List BusMessage)
    (h : MemoryCache.snoopReadExclusiveRequest c who blk = some (c1, out)) :
    c1.miss_count = c.miss_count ∧ c1.total_count = c.total_count ∧ c1.id = c.id ∧
    c1.cached_lines.length = c.cached_lines.length ∧
    (∀ p ∈ c.cached_lines, p.2.state = MesiState.Modified →
      p ∈ c1.cached_lines ∨ BusMessage.WriteRequest p.1 p.2.data ∈ out) := by
  unfold MemoryCache.snoopReadExclusiveRequest at h
  split at h
  case h_1 hlk =>
    cases h
    exact ⟨rfl, rfl, rfl, rfl, fun p hp _ => Or.inl hp⟩
  case h_2 line hlk =>
    simp only [Option.some.injEq, Prod.mk.injEq] at h
    obtain ⟨h1, h2⟩ := h
    subst h1
    subst h2
    refine ⟨rfl, rfl, rfl, lruUpdate_length_of_lookup _ _ _ _ hlk, ?_⟩
    intro p hp hm
    rcases mem_lruUpdate_of_mem _ blk line _ p hlk hp with hin | hpe
    · exact Or.inl hin
    · right
      have hst : line.state = MesiState.Modified := by
        rw [hpe] at hm
        exact hm
      rw [if_pos hst, hpe]
      simp

theorem snoopPeer_inv (c : MemoryCache) (blk : Nat) (c1 : MemoryCache)
    (out : List BusMessage)
    (h : MemoryCache.snoopPeerReadResponse c blk = some (c1, out)) :
    c1.miss_count = c.miss_count ∧ c1.total_count = c.total_count ∧ c1.id = c.id ∧
    c1.cached_lines.length = c.cached_lines.length ∧
    (∀ p ∈ c.cached_lines, p.2.state = MesiState.Modified →
      p ∈ c1.cached_lines ∨ BusMessage.WriteRequest p.1 p.2.data ∈ out) := by
  unfold MemoryCache.snoopPeerReadResponse at h
  split at h
  case h_1 hlk =>
    cases h
    exact ⟨rfl, rfl, rfl, rfl, fun p hp _ => Or.inl hp⟩
  case h_2 line hlk =>
    simp only [Option.some.injEq, Prod.mk.injEq] at h
    obtain ⟨h1, h2⟩ := h
    subst h1
    subst h2
    refine ⟨rfl, rfl, rfl, lruUpdate_length_of_lookup _ _ _ _ hlk, ?_⟩
    intro p hp hm
    rcases mem_lruUpdate_of_mem _ blk line _ p hlk hp with hin | hpe
    · exact Or.inl hin
    · left
      have hst : line.state = MesiState.Modified := by
        rw [hpe] at hm
        exact hm
      have hne : ¬ line.state = MesiState.Exclusive := by
        rw [hst]
        simp
      rw [hpe]
      have : (if line.state = MesiState.Exclusive then MesiState.Shared else line.state) =
          line.state := by rw [if_neg hne]
      rw [this, line_eta]
      simp [lruUpdate]

theorem maybe_flush_inv (c : MemoryCache) :
    (MemoryCache.maybe_flush c).1.miss_count = c.miss_count ∧
    (MemoryCache.maybe_flush c).1.total_count = c.total_count ∧
    (MemoryCache.maybe_flush c).1.id = c.id ∧
    (MemoryCache.maybe_flush c).1.cached_lines.length ≤ c.cached_lines.length := by
  unfold MemoryCache.maybe_flush
  split
  · exact ⟨(flush_counters c).1, (flush_counters c).2.1, (flush_counters c).2.2,
      flush_len_le c⟩
  · exact ⟨rfl, rfl, rfl, Nat.le_refl _⟩

theorem maybe_flush_mem_out (c : MemoryCache) (p : Nat × CacheLine)
    (hlen : c.cached_lines.length = CACHE_SIZE)
    (hp : p ∈ c.cached_lines) (hm : p.2.state = MesiState.Modified) :
    BusMessage.WriteRequest p.1 p.2.data ∈ (MemoryCache.maybe_flush c).2 := by
  unfold MemoryCache.maybe_flush
  rw [if_pos hlen]
  exact flush_mem_out c p hp hm

theorem installLine_inv (c : MemoryCache) (blk : Nat) (st : MesiState)
    (d : List Nat) :
    (MemoryCache.installLine c blk st d).1.miss_count = c.miss_count ∧
    (MemoryCache.installLine c blk st d).1.total_count = c.total_count ∧
    (MemoryCache.installLine c blk st d).1.id = c.id ∧
    (c.cached_lines.length ≤ CACHE_SIZE →
      (MemoryCache.installLine c blk st d).1.cached_lines.length ≤ CACHE_SIZE) ∧
    (c.cached_lines.length = CACHE_SIZE →
      ∀ p ∈ c.cached_lines, p.2.state = MesiState.Modified →
        BusMessage.WriteRequest p.1 p.2.data ∈ (MemoryCache.installLine c blk st d).2) := by
  have hmf := maybe_flush_inv c
  unfold MemoryCache.installLine
  refine ⟨hmf.1, hmf.2.1, hmf.2.2.1, ?_, ?_⟩
  · intro hle
    exact lruInsert_length_le _ _ _ (le_trans hmf.2.2.2 hle)
  · intro hlen p hp hm
    exact maybe_flush_mem_out c p hlen hp hm

theorem handleOwnRR_inv (c : MemoryCache) (sender : ResponseSender) (blk : Nat)
    (d : List Nat) (c1 : MemoryCache) (out : List BusMessage)
    (h : MemoryCache.handleOwnReadResponse c sender blk d = some (c1, out)) :
    c1.miss_count = c.miss_count ∧ c1.total_count = c.total_count ∧ c1.id = c.id ∧
    (c.cached_lines.length ≤ CACHE_SIZE → c1.cached_lines.length ≤ CACHE_SIZE) ∧
    (c.cached_lines.length = CACHE_SIZE →
      ∀ p ∈ c.cached_lines, p.2.state = MesiState.Modified →
        p ∈ c1.cached_lines ∨ BusMessage.WriteRequest p.1 p.2.data ∈ out) := by
  have hinstall :
      MemoryCache.installLine { c with cached_lines := lruTouch c.cached_lines blk }
        blk (installState sender) d = (c1, out) →
      c1.miss_count = c.miss_count ∧ c1.total_count = c.total_count ∧ c1.id = c.id ∧
      (c.cached_lines.length ≤ CACHE_SIZE → c1.cached_lines.length ≤ CACHE_SIZE) ∧
      (c.cached_lines.length = CACHE_SIZE →
        ∀ p ∈ c.cached_lines, p.2.state = MesiState.Modified →
          p ∈ c1.cached_lines ∨ BusMessage.WriteRequest p.1 p.2.data ∈ out) := by
    intro heq
    have hin := installLine_inv { c with cached_lines := lruTouch c.cached_lines blk }
      blk (installState sender) d
    rw [heq] at hin
    have htl : (lruTouch c.cached_lines blk).length = c.cached_lines.length :=
      lruTouch_length _ _
    refine ⟨hin.1, hin.2.1, hin.2.2.1, ?_, ?_⟩
    · intro hle
      exact hin.2.2.2.1 (by simpa [htl] using hle)
    · intro hlen p hp hm
      exact Or.inr (hin.2.2.2.2 (by simpa [htl] using hlen) p
        (mem_lruTouch_of_mem _ blk p hp) hm)
  unfold MemoryCache.handleOwnReadResponse at h
  split at h
  case h_2 hlk =>
    simp only [Option.some.injEq] at h
    exact hinstall h
  case h_1 cached hlk =>
    split at h
    · split at h
      · simp only [Option.some.injEq, Prod.mk.injEq] at h
        obtain ⟨h1, h2⟩ := h
        subst h1
        subst h2
        exact ⟨rfl, rfl, rfl,
          fun hle => (lruTouch_length c.cached_lines blk) ▸ hle,
          fun _ p hp _ => Or.inl (mem_lruTouch_of_mem _ blk p hp)⟩
      · exact absurd h (by simp)
    · simp only [Option.some.injEq] at h
      exact hinstall h

theorem handleOwnRdX_inv (c : MemoryCache) (blk : Nat) (d : List Nat)
    (c1 : MemoryCache) (out : List BusMessage)
    (h : MemoryCache.handleOwnReadExclusiveResponse c blk d = some (c1, out)) :
    c1.miss_count = c.miss_count ∧ c1.total_count = c.total_count ∧ c1.id = c.id ∧
    (c.cached_lines.length ≤ CACHE_SIZE → c1.cached_lines.length ≤ CACHE_SIZE) ∧
    (c.cached_lines.length = CACHE_SIZE →
      ∀ p ∈ c.cached_lines, p.2.state = MesiState.Modified →
        p ∈ c1.cached_lines ∨ BusMessage.WriteRequest p.1 p.2.data ∈ out) := by
  unfold MemoryCache.handleOwnReadExclusiveResponse at h
  simp only [Option.some.injEq] at h
  have hin := installLine_inv c blk MesiState.Modified d
  rw [h] at hin
  exact ⟨hin.1, hin.2.1, hin.2.2.1, hin.2.2.2.1,
    fun hlen p hp hm => Or.inr (hin.2.2.2.2 hlen p hp hm)⟩

theorem handle_inv (c : MemoryCache) (m : BusMessage) (c1 : MemoryCache)
    (out : List BusMessage)
    (h : MemoryCache.handle_bus_message c m = some (c1, out)) :
    c1.miss_count = c.miss_count ∧ c1.total_count = c.total_count ∧ c1.id = c.id ∧
    (c.cached_lines.length ≤ CACHE_SIZE → c1.cached_lines.length ≤ CACHE_SIZE) ∧
    (c.cached_lines.length = CACHE_SIZE →
      ∀ p ∈ c.cached_lines, p.2.state = MesiState.Modified →
        p ∈ c1.cached_lines ∨ BusMessage.WriteRequest p.1 p.2.data ∈ out) := by
  have htriv : c = c1 ∧ ([] : List BusMessage) = out →
      c1.miss_count = c.miss_count ∧ c1.total_count = c.total_count ∧ c1.id = c.id ∧
      (c.cached_lines.length ≤ CACHE_SIZE → c1.cached_lines.length ≤ CACHE_SIZE) ∧
      (c.cached_lines.length = CACHE_SIZE →
        ∀ p ∈ c.cached_lines, p.2.state = MesiState.Modified →
          p ∈ c1.cached_lines ∨ BusMessage.WriteRequest p.1 p.2.data ∈ out) := by
    rintro ⟨hc, ho⟩
    subst hc
    exact ⟨rfl, rfl, rfl, id, fun _ p hp _ => Or.inl hp⟩
  have hexact : ∀ c2 : MemoryCache, c2 = c1 →
      c2.miss_count = c.miss_count ∧ c2.total_count = c.total_count ∧ c2.id = c.id ∧
      c2.cached_lines.length = c.cached_lines.length ∧
      (∀ p ∈ c.cached_lines, p.2.state = MesiState.Modified →
        p ∈ c2.cached_lines ∨ BusMessage.WriteRequest p.1 p.2.data ∈ out) →
      c1.miss_count = c.miss_count ∧ c1.total_count = c.total_count ∧ c1.id = c.id ∧
      (c.cached_lines.length ≤ CACHE_SIZE → c1.cached_lines.length ≤ CACHE_SIZE) ∧
      (c.cached_lines.length = CACHE_SIZE →
        ∀ p ∈ c.cached_lines, p.2.state = MesiState.Modified →
          p ∈ c1.cached_lines ∨ BusMessage.WriteRequest p.1 p.2.data ∈ out) := by
    rintro c2 rfl ⟨h1, h2, h3, h4, h5⟩
    exact ⟨h1, h2, h3, fun hle => h4 ▸ hle, fun _ => h5⟩
  cases m with
  | ReadRequest who blk =>
    simp only [MemoryCache.handle_bus_message] at h
    split at h
    · exact htriv (by simpa [Prod.mk.injEq] using h)
    · have hs := snoopRR_inv c who blk c1 out h
      exact hexact c1 rfl ⟨hs.1, hs.2.1, hs.2.2.1, hs.2.2.2.1, hs.2.2.2.2⟩
  | ReadExclusiveRequest who blk =>
    simp only [MemoryCache.handle_bus_message] at h
    split at h
    · exact htriv (by simpa [Prod.mk.injEq] using h)
    · have hs := snoopRdX_inv c who blk c1 out h
      exact hexact c1 rfl ⟨hs.1, hs.2.1, hs.2.2.1, hs.2.2.2.1, hs.2.2.2.2⟩
  | ReadResponse who sender blk data =>
    cases data with
    | none =>
      simp only [MemoryCache.handle_bus_message] at h
      exact htriv (by simpa [Prod.mk.injEq] using h)
    | some d =>
      simp only [MemoryCache.handle_bus_message] at h
      split at h
      · exact handleOwnRR_inv c sender blk d c1 out h
      · have hs := snoopPeer_inv c blk c1 out h
        exact hexact c1 rfl ⟨hs.1, hs.2.1, hs.2.2.1, hs.2.2.2.1, hs.2.2.2.2⟩
  | ReadExclusiveResponse who blk data =>
    cases data with
    | none =>
      simp only [MemoryCache.handle_bus_message] at h
      exact htriv (by simpa [Prod.mk.injEq] using h)
    | some d =>
      simp only [MemoryCache.handle_bus_message] at h
      split at h
      · exact handleOwnRdX_inv c blk d c1 out h
      · exact htriv (by simpa [Prod.mk.injEq] using h)
  | WriteRequest blk d =>
    simp only [MemoryCache.handle_bus_message] at h
    exact htriv (by simpa [Prod.mk.injEq] using h)

theorem snoop_backlog_inv (msgs : List BusMessage) :
    ∀ (c c1 : MemoryCache) (out : List BusMessage),
    MemoryCache.snoop_backlog c msgs = some (c1, out) →
    c1.miss_count = c.miss_count ∧ c1.total_count = c.total_count ∧ c1.id = c.id ∧
    (c.cached_lines.length ≤ CACHE_SIZE → c1.cached_lines.length ≤ CACHE_SIZE) := by
  induction msgs with
  | nil =>
    intro c c1 out h
    simp only [MemoryCache.snoop_backlog, Option.some.injEq, Prod.mk.injEq] at h
    obtain ⟨h1, h2⟩ := h
    subst h1
    exact ⟨rfl, rfl, rfl, id⟩
  | cons m rest ih =>
    intro c c1 out h
    simp only [MemoryCache.snoop_backlog] at h
    split at h
    · exact absurd h (by simp)
    case h_2 ca o heq =>
      rw [Option.map_eq_some'] at h
      obtain ⟨r, hr, hf⟩ := h
      have hstep := handle_inv c m ca o heq
      have hrest := ih ca r.1 r.2 (by rw [hr])
      have hc1 : r.1 = c1 := by
        have := congrArg Prod.fst hf
        simpa using this
      rw [← hc1]
      exact ⟨hrest.1.trans hstep.1, hrest.2.1.trans hstep.2.1,
        hrest.2.2.1.trans hstep.2.2.1,
        fun hle => hrest.2.2.2 (hstep.2.2.2.1 hle)⟩

theorem snoop_until_inv (msgs : List BusMessage) :
    ∀ (c c1 : MemoryCache) (p : BusMessage → Bool) (out rest : List BusMessage),
    MemoryCache.snoop_until c p msgs = some (c1, out, rest) →
    c1.miss_count = c.miss_count ∧ c1.total_count = c.total_count ∧ c1.id = c.id ∧
    (c.cached_lines.length ≤ CACHE_SIZE → c1.cached_lines.length ≤ CACHE_SIZE) := by
  induction msgs with
  | nil =>
    intro c c1 p out rest h
    simp [MemoryCache.snoop_until] at h
  | cons m rest0 ih =>
    intro c c1 p out rest h
    simp only [MemoryCache.snoop_until] at h
    split at h
    · exact absurd h (by simp)
    case h_2 ca o heq =>
      have hstep := handle_inv c m ca o heq
      split at h
      · simp only [Option.some.injEq, Prod.mk.injEq] at h
        obtain ⟨h1, _⟩ := h
        subst h1
        exact ⟨hstep.1, hstep.2.1, hstep.2.2.1, hstep.2.2.2.1⟩
      · rw [Option.map_eq_some'] at h
        obtain ⟨r, hr, hf⟩ := h
        have hrest := ih ca r.1 p r.2.1 r.2.2 (by rw [hr])
        have hc1 : r.1 = c1 := by
          have := congrArg Prod.fst hf
          simpa using this
        rw [← hc1]
        exact ⟨hrest.1.trans hstep.1, hrest.2.1.trans hstep.2.1,
          hrest.2.2.1.trans hstep.2.2.1,
          fun hle => hrest.2.2.2 (hstep.2.2.2.1 hle)⟩

theorem readLoop_inv (fuel : Nat) :
    ∀ (c : MemoryCache) (target addr : Nat) (incoming : List BusMessage)
      (b : Nat) (c1 : MemoryCache) (out rest : List BusMessage),
    MemoryCache.readLoop c target addr fuel incoming = some (b, c1, out, rest) →
    c1.miss_count = c.miss_count ∧ c1.total_count = c.total_count ∧ c1.id = c.id ∧
    (c.cached_lines.length ≤ CACHE_SIZE → c1.cached_lines.length ≤ CACHE_SIZE) := by
  induction fuel with
  | zero =>
    intro c target addr incoming b c1 out rest h
    simp [MemoryCache.readLoop] at h
  | succ fuel ih =>
    intro c target addr incoming b c1 out rest h
    simp only [MemoryCache.readLoop] at h
    split at h
    · exact absurd h (by simp)
    case h_2 ca oo rr heq =>
      have hsu := snoop_until_inv incoming c ca _ oo rr heq
      have htch : ({ ca with cached_lines := lruTouch ca.cached_lines target } :
          MemoryCache).cached_lines.length = ca.cached_lines.length :=
        lruTouch_length _ _
      split at h
      case h_1 line hlk =>
        split at h
        · split at h
          case h_1 bb hrb =>
            simp only [Option.some.injEq, Prod.mk.injEq] at h
            obtain ⟨-, hc1, -, -⟩ := h
            rw [← hc1]
            exact ⟨hsu.1, hsu.2.1, hsu.2.2.1,
              fun hle => htch ▸ (hsu.2.2.2 hle)⟩
          · exact absurd h (by simp)
        · rw [Option.map_eq_some'] at h
          obtain ⟨r, hr, hf⟩ := h
          have hrec := ih _ target addr rr r.1 r.2.1 r.2.2.1 r.2.2.2 (by rw [hr])
          have hc1 : r.2.1 = c1 := by
            have := congrArg (fun x => x.2.1) hf
            simpa using this
          rw [← hc1]
          refine ⟨hrec.1.trans hsu.1, hrec.2.1.trans hsu.2.1,
            hrec.2.2.1.trans hsu.2.2.1, fun hle => hrec.2.2.2 ?_⟩
          simpa [htch] using hsu.2.2.2 hle
      case h_2 hlk =>
        rw [Option.map_eq_some'] at h
        obtain ⟨r, hr, hf⟩ := h
        have hrec := ih _ target addr rr r.1 r.2.1 r.2.2.1 r.2.2.2 (by rw [hr])
        have hc1 : r.2.1 = c1 := by
          have := congrArg (fun x => x.2.1) hf
          simpa using this
        rw [← hc1]
        refine ⟨hrec.1.trans hsu.1, hrec.2.1.trans hsu.2.1,
          hrec.2.2.1.trans hsu.2.2.1, fun hle => hrec.2.2.2 ?_⟩
        simpa [htch] using hsu.2.2.2 hle

theorem writeLoop_inv (fuel : Nat) :
    ∀ (c : MemoryCache) (target addr v : Nat) (incoming : List BusMessage)
      (c1 : MemoryCache) (out rest : List BusMessage),
    MemoryCache.writeLoop c target addr v fuel incoming = some (c1, out, rest) →
    c1.miss_count = c.miss_count ∧ c1.total_count = c.total_count ∧ c1.id = c.id ∧
    (c.cached_lines.length ≤ CACHE_SIZE → c1.cached_lines.length ≤ CACHE_SIZE) := by
  induction fuel with
  | zero =>
    intro c target addr v incoming c1 out rest h
    simp [MemoryCache.writeLoop] at h
  | succ fuel ih =>
    intro c target addr v incoming c1 out rest h
    simp only [MemoryCache.writeLoop] at h
    split at h
    · exact absurd h (by simp)
    case h_2 ca oo rr heq =>
      have hsu := snoop_until_inv incoming c ca _ oo rr heq
      have htch : ({ ca with cached_lines := lruTouch ca.cached_lines target } :
          MemoryCache).cached_lines.length = ca.cached_lines.length :=
        lruTouch_length _ _
      split at h
      case h_1 line hlk =>
        split at h
        case isTrue hst =>
          split at h
          case h_1 line2 hwb =>
            simp only [Option.some.injEq, Prod.mk.injEq] at h
            obtain ⟨hc1, -, -⟩ := h
            rw [← hc1]
            have hul : (lruUpdate ca.cached_lines target line2).length =
                ca.cached_lines.length :=
              lruUpdate_length_of_lookup _ _ _ _ hlk
            exact ⟨hsu.1, hsu.2.1, hsu.2.2.1, fun hle => hul ▸ (hsu.2.2.2 hle)⟩
          · exact absurd h (by simp)
        case isFalse hst =>
          rw [Option.map_eq_some'] at h
          obtain ⟨r, hr, hf⟩ := h
          have hrec := ih _ target addr v rr r.1 r.2.1 r.2.2 (by rw [hr])
          have hc1 : r.1 = c1 := by
            have := congrArg (fun x => x.1) hf
            simpa using this
          rw [← hc1]
          refine ⟨hrec.1.trans hsu.1, hrec.2.1.trans hsu.2.1,
            hrec.2.2.1.trans hsu.2.2.1, fun hle => hrec.2.2.2 ?_⟩
          simpa [htch] using hsu.2.2.2 hle
      case h_2 hlk =>
        rw [Option.map_eq_some'] at h
        obtain ⟨r, hr, hf⟩ := h
        have hrec := ih _ target addr v rr r.1 r.2.1 r.2.2 (by rw [hr])
        have hc1 : r.1 = c1 := by
          have := congrArg (fun x => x.1) hf
          simpa using this
        rw [← hc1]
        refine ⟨hrec.1.trans hsu.1, hrec.2.1.trans hsu.2.1,
          hrec.2.2.1.trans hsu.2.2.1, fun hle => hrec.2.2.2 ?_⟩
        simpa [htch] using hsu.2.2.2 hle

theorem read_inv (c : MemoryCache) (backlog incoming : List BusMessage)
    (fuel addr : Nat) (b : Nat) (c1 : MemoryCache) (out rest : List BusMessage)
    (h : MemoryCache.read c backlog incoming fuel addr = some (b, c1, out, rest)) :
    c1.total_count = c.total_count + 1 ∧
    (c1.miss_count = c.miss_count ∨ c1.miss_count = c.miss_count + 1) ∧
    c1.id = c.id ∧
    (c.cached_lines.length ≤ CACHE_SIZE → c1.cached_lines.length ≤ CACHE_SIZE) := by
  simp only [MemoryCache.read] at h
  split at h
  · exact absurd h (by simp)
  case h_2 c2 out0 heq =>
    have hbk := snoop_backlog_inv backlog _ c2 out0 heq
    have hbk1 : c2.miss_count = c.miss_count := hbk.1
    have hbk2 : c2.total_count = c.total_count + 1 := hbk.2.1
    have hbk3 : c2.id = c.id := hbk.2.2.1
    have hbk4 : c.cached_lines.length ≤ CACHE_SIZE →
        c2.cached_lines.length ≤ CACHE_SIZE := hbk.2.2.2
    split at h
    case h_1 line hlk =>
      split at h
      · split at h
        case h_1 bb hrb =>
          simp only [Option.some.injEq, Prod.mk.injEq] at h
          obtain ⟨-, hc1, -, -⟩ := h
          rw [← hc1]
          exact ⟨hbk2, Or.inl hbk1, hbk3,
            fun hle => (lruTouch_length c2.cached_lines _) ▸ hbk4 hle⟩
        · exact absurd h (by simp)
      · rw [Option.map_eq_some'] at h
        obtain ⟨r, hr, hf⟩ := h
        have hrec := readLoop_inv fuel _ _ addr incoming r.1 r.2.1 r.2.2.1 r.2.2.2
          (by rw [hr])
        have hc1 : r.2.1 = c1 := by
          have := congrArg (fun x => x.2.1) hf
          simpa using this
        rw [← hc1]
        refine ⟨hrec.2.1.trans hbk2, Or.inr (hrec.1.trans (congrArg (· + 1) hbk1)),
          hrec.2.2.1.trans hbk3, fun hle => hrec.2.2.2 ?_⟩
        simpa [lruTouch_length] using hbk4 hle
    case h_2 hlk =>
      rw [Option.map_eq_some'] at h
      obtain ⟨r, hr, hf⟩ := h
      have hrec := readLoop_inv fuel _ _ addr incoming r.1 r.2.1 r.2.2.1 r.2.2.2
        (by rw [hr])
      have hc1 : r.2.1 = c1 := by
        have := congrArg (fun x => x.2.1) hf
        simpa using this
      rw [← hc1]
      refine ⟨hrec.2.1.trans hbk2, Or.inr (hrec.1.trans (congrArg (· + 1) hbk1)),
        hrec.2.2.1.trans hbk3, fun hle => hrec.2.2.2 ?_⟩
      simpa [lruTouch_length] using hbk4 hle

theorem write_inv (c : MemoryCache) (backlog incoming : List BusMessage)
    (fuel addr v : Nat) (c1 : MemoryCache) (out rest : List BusMessage)
    (h : MemoryCache.write c backlog incoming fuel addr v = some (c1, out, rest)) :
    c1.total_count = c.total_count + 1 ∧
    (c1.miss_count = c.miss_count ∨ c1.miss_count = c.miss_count + 1) ∧
    c1.id = c.id ∧
    (c.cached_lines.length ≤ CACHE_SIZE → c1.cached_lines.length ≤ CACHE_SIZE) := by
  simp only [MemoryCache.write] at h
  split at h
  · exact absurd h (by simp)
  case h_2 c2 out0 heq =>
    have hbk := snoop_backlog_inv backlog _ c2 out0 heq
    have hbk1 : c2.miss_count = c.miss_count := hbk.1
    have hbk2 : c2.total_count = c.total_count + 1 := hbk.2.1
    have hbk3 : c2.id = c.id := hbk.2.2.1
    have hbk4 : c.cached_lines.length ≤ CACHE_SIZE →
        c2.cached_lines.length ≤ CACHE_SIZE := hbk.2.2.2
    have hmiss : ∀ (cm : MemoryCache) (o2 : List BusMessage)
        (hcm : cm.miss_count = c2.miss_count + 1) (hct : cm.total_count = c2.total_count)
        (hci : cm.id = c2.id)
        (hcl : cm.cached_lines.length = c2.cached_lines.length)
        (hmap : (MemoryCache.writeLoop cm (Block.for_addr addr) addr v fuel
            incoming).map (fun r => (r.1, o2 ++ r.2.1, r.2.2)) = some (c1, out, rest)),
        c1.total_count = c.total_count + 1 ∧
        (c1.miss_count = c.miss_count ∨ c1.miss_count = c.miss_count + 1) ∧
        c1.id = c.id ∧
        (c.cached_lines.length ≤ CACHE_SIZE → c1.cached_lines.length ≤ CACHE_SIZE) := by
      intro cm o2 hcm hct hci hcl hmap
      rw [Option.map_eq_some'] at hmap
      obtain ⟨r, hr, hf⟩ := hmap
      have hrec := writeLoop_inv fuel cm (Block.for_addr addr) addr v incoming
        r.1 r.2.1 r.2.2 (by rw [hr])
      have hc1 : r.1 = c1 := by
        have := congrArg (fun x => x.1) hf
        simpa using this
      rw [← hc1]
      refine ⟨(hrec.2.1.trans hct).trans hbk2,
        Or.inr ((hrec.1.trans hcm).trans (congrArg (· + 1) hbk1)),
        (hrec.2.2.1.trans hci).trans hbk3, fun hle => hrec.2.2.2 ?_⟩
      rw [hcl]
      exact hbk4 hle
    split at h
    case h_1 line hlk =>
      have hupd : ∀ line2 : CacheLine,
          (lruUpdate c2.cached_lines (Block.for_addr addr) line2).length =
            c2.cached_lines.length :=
        fun line2 => lruUpdate_length_of_lookup _ _ _ _ hlk
      split at h
      case h_1 =>
        split at h
        case h_1 line2 hwb =>
          simp only [Option.some.injEq, Prod.mk.injEq] at h
          obtain ⟨hc1, -, -⟩ := h
          rw [← hc1]
          exact ⟨hbk2, Or.inl hbk1, hbk3, fun hle => (hupd line2) ▸ hbk4 hle⟩
        · exact absurd h (by simp)
      case h_2 =>
        split at h
        case h_1 line2 hwb =>
          simp only [Option.some.injEq, Prod.mk.injEq] at h
          obtain ⟨hc1, -, -⟩ := h
          rw [← hc1]
          exact ⟨hbk2, Or.inl hbk1, hbk3, fun hle => (hupd line2) ▸ hbk4 hle⟩
        · exact absurd h (by simp)
      case h_3 =>
        split at h
        case h_1 line2 hwb =>
          simp only [Option.some.injEq, Prod.mk.injEq] at h
          obtain ⟨hc1, -, -⟩ := h
          rw [← hc1]
          exact ⟨hbk2, Or.inl hbk1, hbk3, fun hle => (hupd line2) ▸ hbk4 hle⟩
        · exact absurd h (by simp)
      case h_4 =>
        exact hmiss
          { c2 with cached_lines := lruTouch c2.cached_lines (Block.for_addr addr),
                    miss_count := c2.miss_count + 1 }
          out0 rfl rfl rfl (lruTouch_length _ _) h
    case h_2 hlk =>
      exact hmiss { c2 with miss_count := c2.miss_count + 1 } out0 rfl rfl rfl rfl h

theorem busForward_some (outs : List (BusMessage → Except Unit Unit)) (msg : BusMessage) :
    outs.foldl (fun st out => st.map (fun _ => ignore (out msg))) (some ()) = some () := by
  induction outs with
  | nil => rfl
  | cons o t ih => simpa [ignore] using ih

/-- Claim C7 (counterexample): the benchmark driver does not execute the
nine phases listed in the claim — the Random Read and Random Write phases
are commented out in benchmark.rs, so the reported phase list differs. -/
theorem claim_C7_counterexample :
    benchmarkPhases 0 ≠
      ["Sequential Read", "Sequential Write", "Random Read", "Random Write",
       "Thread-Unique Chunk Read", "Thread-Unique Chunk Write",
       "Shared Chunk Read", "Shared Chunk Write", "False-Sharing Chunk Write"] := by
  decide

/-- Claim C7 (amended): the benchmark driver executes, for every cache,
exactly these phases in this order, each reported on completion with its
phase name: Sequential Read, Sequential Write, Thread-Unique Chunk Read,
Thread-Unique Chunk Write, Shared Chunk Read, Shared Chunk Write,
False-Sharing Chunk Write; the Random Read and Random Write phases are
commented out in the source and are not executed. -/
theorem claim_C7 (id : Nat) :
    benchmarkPhases id =
      ["Sequential Read", "Sequential Write",
       "Thread-Unique Chunk Read", "Thread-Unique Chunk Write",
       "Shared Chunk Read", "Shared Chunk Write", "False-Sharing Chunk Write"] := rfl

/-- Claim C8 (counterexample): a failed send on one of the bus's own
forwarding endpoints is not fatal: Bus::run discards the send result with
ignore and completes normally (some ()), unlike the expect-checked sends
(sendExpect), which panic (none) on the same failure. -/
theorem claim_C8_counterexample :
    Bus.run [fun _ => Except.error ()] [BusMessage.WriteRequest 0 z32] = some () ∧
    sendExpect (Except.error ()) = none := by
  constructor
  · rfl
  · rfl

/-- Claim C8 (amended): every send performed by a cache or by the
main-memory agent checks its result with expect and a failure is fatal
(sendExpect yields none exactly on a failed send), but the bus's own
forwarding sends ignore failures: Bus::run completes for every list of
outbound endpoints and messages, even when sends fail. -/
theorem claim_C8 :
    (∀ r : Except Unit Unit, sendExpect r = none ↔ r = Except.error ()) ∧
    (∀ (outs : List (BusMessage → Except Unit Unit)) (msgs : List BusMessage),
      Bus.run outs msgs = some ()) := by
  constructor
  · intro r
    cases r with
    | ok u => simp [sendExpect]
    | error e => simp [sendExpect]
  · intro outs msgs
    induction msgs with
    | nil => rfl
    | cons m t ih =>
      show List.foldl _ _ (m :: t) = some ()
      rw [List.foldl_cons]
      show List.foldl _ ((some ()).bind fun _ =>
        outs.foldl (fun st out => st.map (fun _ => ignore (out m))) (some ())) t = some ()
      rw [Option.some_bind, busForward_some]
      exact ih

/-- Claim C4: for every state of the main-memory agent and every received
message (with the block index in range and a BLOCK_SIZE payload for writes):
a ReadRequest yields a ReadResponse whose data is none exactly when
held_exclusively_elsewhere (the modified bit) is set, and otherwise carries
the current block bytes, with the state unchanged; a ReadExclusiveRequest
yields none exactly when the bit is set, and otherwise sets the bit and
responds with the current bytes; a WriteRequest clears the bit, overwrites
exactly the bytes of the block, and emits no response. -/
theorem claim_C4 (mem : MainMemory) (who blk a b2 : Nat) (bytes : List Nat)
    (hblk : blk < MAIN_MEMORY_SIZE / BLOCK_SIZE) (hlen : bytes.length = BLOCK_SIZE) :
    ((MainMemory.step mem (BusMessage.ReadRequest who blk)).1 = mem ∧
     (MainMemory.step mem (BusMessage.ReadRequest who blk)).2 =
       [BusMessage.ReadResponse who ResponseSender.MainMemory blk
         (if mem.modified blk then none else some (blockBytes mem.data blk))] ∧
     ((MainMemory.step mem (BusMessage.ReadRequest who blk)).2 =
       [BusMessage.ReadResponse who ResponseSender.MainMemory blk none] ↔
       mem.modified blk = true)) ∧
    (((MainMemory.step mem (BusMessage.ReadExclusiveRequest who blk)).2 =
       [BusMessage.ReadExclusiveResponse who blk none] ↔ mem.modified blk = true) ∧
     (mem.modified blk = true →
       (MainMemory.step mem (BusMessage.ReadExclusiveRequest who blk)).1 = mem) ∧
     (mem.modified blk = false →
       (MainMemory.step mem (BusMessage.ReadExclusiveRequest who blk)).2 =
         [BusMessage.ReadExclusiveResponse who blk (some (blockBytes mem.data blk))] ∧
       (MainMemory.step mem (BusMessage.ReadExclusiveRequest who blk)).1.modified blk = true ∧
       (b2 ≠ blk →
         (MainMemory.step mem (BusMessage.ReadExclusiveRequest who blk)).1.modified b2 =
           mem.modified b2) ∧
       (MainMemory.step mem (BusMessage.ReadExclusiveRequest who blk)).1.data = mem.data)) ∧
    ((MainMemory.step mem (BusMessage.WriteRequest blk bytes)).2 = [] ∧
     (MainMemory.step mem (BusMessage.WriteRequest blk bytes)).1.modified blk = false ∧
     (b2 ≠ blk →
       (MainMemory.step mem (BusMessage.WriteRequest blk bytes)).1.modified b2 =
         mem.modified b2) ∧
     (blk * BLOCK_SIZE ≤ a ∧ a < (blk + 1) * BLOCK_SIZE →
       (MainMemory.step mem (BusMessage.WriteRequest blk bytes)).1.data a =
         bytes.getD (a - blk * BLOCK_SIZE) 0) ∧
     (¬ (blk * BLOCK_SIZE ≤ a ∧ a < (blk + 1) * BLOCK_SIZE) →
       (MainMemory.step mem (BusMessage.WriteRequest blk bytes)).1.data a = mem.data a)) := by
  refine ⟨⟨rfl, rfl, ?_⟩, ⟨?_, ?_, ?_⟩, rfl, by simp [MainMemory.step], ?_, ?_, ?_⟩
  · by_cases hm : mem.modified blk <;> simp [MainMemory.step, hm]
  · by_cases hm : mem.modified blk <;> simp [MainMemory.step, hm]
  · intro hm
    simp [MainMemory.step, hm]
  · intro hm
    refine ⟨by simp [MainMemory.step, hm], by simp [MainMemory.step, hm], ?_, ?_⟩
    · intro hb2
      simp [MainMemory.step, hm, hb2]
    · simp [MainMemory.step, hm]
  · intro hb2
    simp [MainMemory.step, hb2]
  · intro ha
    simp [MainMemory.step, writeBlock, ha]
  · intro ha
    simp [MainMemory.step, writeBlock, ha]

/-- Claim C4 (witness): the theorem applied at the initial memory, cache 0,
block 0, a zero payload, addresses 5 and block 1. -/
theorem claim_C4_witness :
    (MainMemory.step MainMemory.init (BusMessage.ReadRequest 0 0)).2 =
      [BusMessage.ReadResponse 0 ResponseSender.MainMemory 0 (some z32)] ∧
    (MainMemory.step MainMemory.init (BusMessage.ReadExclusiveRequest 0 0)).1.modified 0 =
      true ∧
    (MainMemory.step MainMemory.init (BusMessage.WriteRequest 0 z32)).1.data 5 = 0 := by
  have h := claim_C4 MainMemory.init 0 0 5 1 z32 (by decide) (by decide)
  refine ⟨?_, ?_, ?_⟩
  · exact (h.1.2.1).trans (by decide)
  · exact (h.2.1.2.2 rfl).2.1
  · exact ((h.2.2).2.2.2.1 (by decide)).trans (by decide)

/-- Claim C2 (code bug): the assertion that a data-carrying ReadResponse
racing with an existing valid copy always comes from main memory fails in a
reachable execution.  Trace, with caches 0 and 1 and main memory all
starting from their spawn states: cache 0 reads address 0 (its ReadRequest
echoes back, main memory responds, the line installs Exclusive); cache 1
reads address 0 and main memory responds before cache 0 has snooped the
request, so cache 1 also installs block 0 Exclusive; when cache 0 next
accesses (here, reading address 64), draining its backlog makes it answer
the old request with ReadResponse from Cache and demote to Shared; when
cache 1 next accesses, it drains that peer response while already holding
block 0 valid — handle_bus_message hits the failed assert (none) and the
whole access panics.  The first two conjuncts recompute the installing
reads; the third shows the emission of the late peer response; the last two
show the assertion failure. -/
theorem claim_C2_assert_failure :
    MemoryCache.read (mkCache 0) []
      [BusMessage.ReadRequest 0 0,
       BusMessage.ReadResponse 0 ResponseSender.MainMemory 0 (some z32)] 1 0 =
      some (0, cA1, [BusMessage.ReadRequest 0 0], []) ∧
    MemoryCache.read (mkCache 1) []
      [BusMessage.ReadRequest 1 0,
       BusMessage.ReadResponse 1 ResponseSender.MainMemory 0 (some z32)] 1 0 =
      some (0, cB1, [BusMessage.ReadRequest 1 0], []) ∧
    MemoryCache.read cA1
      [BusMessage.ReadRequest 1 0,
       BusMessage.ReadResponse 1 ResponseSender.MainMemory 0 (some z32)]
      [BusMessage.ReadRequest 0 2,
       BusMessage.ReadResponse 0 ResponseSender.MainMemory 2 (some z32)] 1 64 =
      some (0, cA2,
        [BusMessage.ReadResponse 1 ResponseSender.Cache 0 (some z32),
         BusMessage.ReadRequest 0 2], []) ∧
    MemoryCache.handle_bus_message cB1
      (BusMessage.ReadResponse 1 ResponseSender.Cache 0 (some z32)) = none ∧
    MemoryCache.read cB1
      [BusMessage.ReadResponse 1 ResponseSender.Cache 0 (some z32)] [] 1 0 = none := by
  refine ⟨by decide, by decide, by decide, by decide, by decide⟩

/-- Claim C5: for every cache whose line keys are distinct (an LruCache
invariant), flush emits exactly one WriteRequest per Modified line, carrying
that line's data, in order; it removes exactly the Modified lines, leaving
the others in place; it leaves the counters and id unchanged; afterwards the
cache holds no Modified line; and a second flush changes nothing and emits
nothing. -/
theorem claim_C5 (c : MemoryCache) (h : (c.cached_lines.map Prod.fst).Nodup) :
    (MemoryCache.flush c).2 =
      (c.cached_lines.filter (fun p => p.2.state = MesiState.Modified)).map
        (fun p => BusMessage.WriteRequest p.1 p.2.data) ∧
    (MemoryCache.flush c).1.cached_lines =
      c.cached_lines.filter (fun p => ¬ p.2.state = MesiState.Modified) ∧
    (MemoryCache.flush c).1.miss_count = c.miss_count ∧
    (MemoryCache.flush c).1.total_count = c.total_count ∧
    (MemoryCache.flush c).1.id = c.id ∧
    (∀ p ∈ (MemoryCache.flush c).1.cached_lines, ¬ p.2.state = MesiState.Modified) ∧
    MemoryCache.flush (MemoryCache.flush c).1 = ((MemoryCache.flush c).1, []) := by
  exact ⟨flush_out c, flush_lines_nodup c h, (flush_counters c).1,
    (flush_counters c).2.1, (flush_counters c).2.2, flush_no_modified c h,
    flush_flush c h⟩

/-- Claim C5 (witness): flushing a cache holding block 3 Modified and block
4 Exclusive writes back exactly block 3, keeps block 4, and a second flush
is the identity with no messages. -/
theorem claim_C5_witness :
    (MemoryCache.flush c5w).2 = [BusMessage.WriteRequest 3 z32] ∧
    (MemoryCache.flush c5w).1.cached_lines =
      [(4, { state := MesiState.Exclusive, data := z32 })] ∧
    MemoryCache.flush (MemoryCache.flush c5w).1 = ((MemoryCache.flush c5w).1, []) := by
  have h := claim_C5 c5w (by decide)
  exact ⟨h.1.trans (by decide), h.2.1.trans (by decide), h.2.2.2.2.2.2⟩

/-- Claim C10: handle_bus_message never changes miss_count or total_count,
for any cache state and any bus message; only the program-facing read and
write do: each successful call increments total_count by exactly one and
miss_count by at most one. -/
theorem claim_C10 :
    (∀ (c : MemoryCache) (m : BusMessage) (c1 : MemoryCache) (out : List BusMessage),
      MemoryCache.handle_bus_message c m = some (c1, out) →
      c1.miss_count = c.miss_count ∧ c1.total_count = c.total_count) ∧
    (∀ (c : MemoryCache) (backlog incoming : List BusMessage) (fuel addr b : Nat)
        (c1 : MemoryCache) (out rest : List BusMessage),
      MemoryCache.read c backlog incoming fuel addr = some (b, c1, out, rest) →
      c1.total_count = c.total_count + 1 ∧ c1.miss_count ≤ c.miss_count + 1) ∧
    (∀ (c : MemoryCache) (backlog incoming : List BusMessage) (fuel addr v : Nat)
        (c1 : MemoryCache) (out rest : List BusMessage),
      MemoryCache.write c backlog incoming fuel addr v = some (c1, out, rest) →
      c1.total_count = c.total_count + 1 ∧ c1.miss_count ≤ c.miss_count + 1) := by
  refine ⟨?_, ?_, ?_⟩
  · intro c m c1 out h
    have hi := handle_inv c m c1 out h
    exact ⟨hi.1, hi.2.1⟩
  · intro c backlog incoming fuel addr b c1 out rest h
    have hi := read_inv c backlog incoming fuel addr b c1 out rest h
    refine ⟨hi.1, ?_⟩
    rcases hi.2.1 with hm | hm
    · omega
    · omega
  · intro c backlog incoming fuel addr v c1 out rest h
    have hi := write_inv c backlog incoming fuel addr v c1 out rest h
    refine ⟨hi.1, ?_⟩
    rcases hi.2.1 with hm | hm
    · omega
    · omega

/-- Claim C10 (witness): snooped traffic leaves the counters of a cache
with a Modified line unchanged, and the concrete installing read of the C2
trace increments total_count by exactly one and miss_count by at most one. -/
theorem claim_C10_witness :
    (MemoryCache.mk 0 0 0
        [(5, CacheLine.mk MesiState.Shared z32)]).miss_count = c1w.miss_count ∧
    cA1.total_count = (mkCache 0).total_count + 1 ∧
    cA1.miss_count ≤ (mkCache 0).miss_count + 1 := by
  refine ⟨?_, ?_⟩
  · exact (claim_C10.1 c1w (BusMessage.ReadRequest 1 5)
      (MemoryCache.mk 0 0 0 [(5, CacheLine.mk MesiState.Shared z32)])
      [BusMessage.WriteRequest 5 z32,
       BusMessage.ReadResponse 1 ResponseSender.Cache 5 (some z32)] (by decide)).1
  · exact claim_C10.2.1 (mkCache 0) []
      [BusMessage.ReadRequest 0 0,
       BusMessage.ReadResponse 0 ResponseSender.MainMemory 0 (some z32)] 1 0 0
      cA1 [BusMessage.ReadRequest 0 0] [] (by decide)

/-- Claim C6: a cache never holds more than CACHE_SIZE (= 32) lines — the
bus-message handler, flush, empty, read and write all preserve the bound —
and at capacity no Modified line is silently dropped: when a handler runs on
a cache holding exactly CACHE_SIZE lines, every Modified line either
survives in the cache or has its WriteRequest among the emitted messages
(the install paths invoke flush before inserting). -/
theorem claim_C6 :
    (∀ (c : MemoryCache) (m : BusMessage) (c1 : MemoryCache) (out : List BusMessage),
      MemoryCache.handle_bus_message c m = some (c1, out) →
      c.cached_lines.length ≤ CACHE_SIZE → c1.cached_lines.length ≤ CACHE_SIZE) ∧
    (∀ c : MemoryCache,
      (MemoryCache.flush c).1.cached_lines.length ≤ c.cached_lines.length) ∧
    (∀ c : MemoryCache, (MemoryCache.empty c).1.cached_lines.length = 0) ∧
    (∀ (c : MemoryCache) (backlog incoming : List BusMessage) (fuel addr b : Nat)
        (c1 : MemoryCache) (out rest : List BusMessage),
      MemoryCache.read c backlog incoming fuel addr = some (b, c1, out, rest) →
      c.cached_lines.length ≤ CACHE_SIZE → c1.cached_lines.length ≤ CACHE_SIZE) ∧
    (∀ (c : MemoryCache) (backlog incoming : List BusMessage) (fuel addr v : Nat)
        (c1 : MemoryCache) (out rest : List BusMessage),
      MemoryCache.write c backlog incoming fuel addr v = some (c1, out, rest) →
      c.cached_lines.length ≤ CACHE_SIZE → c1.cached_lines.length ≤ CACHE_SIZE) ∧
    (∀ (c : MemoryCache) (m : BusMessage) (c1 : MemoryCache) (out : List BusMessage),
      c.cached_lines.length = CACHE_SIZE →
      MemoryCache.handle_bus_message c m = some (c1, out) →
      ∀ p ∈ c.cached_lines, p.2.state = MesiState.Modified →
        p ∈ c1.cached_lines ∨ BusMessage.WriteRequest p.1 p.2.data ∈ out) := by
  refine ⟨?_, flush_len_le, ?_, ?_, ?_, ?_⟩
  · intro c m c1 out h hle
    exact (handle_inv c m c1 out h).2.2.2.1 hle
  · intro c
    simp [MemoryCache.empty]
  · intro c backlog incoming fuel addr b c1 out rest h hle
    exact (read_inv c backlog incoming fuel addr b c1 out rest h).2.2.2 hle
  · intro c backlog incoming fuel addr v c1 out rest h hle
    exact (write_inv c backlog incoming fuel addr v c1 out rest h).2.2.2 hle
  · intro c m c1 out hlen h p hp hm
    exact (handle_inv c m c1 out h).2.2.2.2 hlen p hp hm

/-- Claim C6 (witness): handling a ReadExclusiveResponse at a full cache
(32 lines, block 0 Modified) flushes first — the resulting cache keeps at
most 32 lines and the Modified line 0 is written back in the emitted
messages. -/
theorem claim_C6_witness :
    ((40, CacheLine.mk MesiState.Modified z32) ::
        (List.range 31).map
          (fun i => (i + 1, CacheLine.mk MesiState.Exclusive z32))).length ≤ CACHE_SIZE ∧
    ((0, CacheLine.mk MesiState.Modified z32) ∈
        ((40, CacheLine.mk MesiState.Modified z32) ::
          (List.range 31).map
            (fun i => (i + 1, CacheLine.mk MesiState.Exclusive z32))) ∨
      BusMessage.WriteRequest 0 z32 ∈ [BusMessage.WriteRequest 0 z32]) := by
  refine ⟨?_, ?_⟩
  · exact claim_C6.1 c6w (BusMessage.ReadExclusiveResponse 7 40 (some z32))
      (MemoryCache.mk 7 0 0 ((40, CacheLine.mk MesiState.Modified z32) ::
        (List.range 31).map
          (fun i => (i + 1, CacheLine.mk MesiState.Exclusive z32))))
      [BusMessage.WriteRequest 0 z32] (by decide) (by decide)
  · exact claim_C6.2.2.2.2.2 c6w (BusMessage.ReadExclusiveResponse 7 40 (some z32))
      (MemoryCache.mk 7 0 0 ((40, CacheLine.mk MesiState.Modified z32) ::
        (List.range 31).map
          (fun i => (i + 1, CacheLine.mk MesiState.Exclusive z32))))
      [BusMessage.WriteRequest 0 z32] (by decide) (by decide)
      (0, CacheLine.mk MesiState.Modified z32) (by decide) rfl

/-- Claim C9 (counterexample): immediately after construction (a reachable
state), total_count is zero and miss_percent computes (0/0) * 100, which is
NaN — not a value in the range [0, 100] as the claim states. -/
theorem claim_C9_counterexample :
    Reach (mkCache 0) ∧
    MemoryCache.miss_percent (mkCache 0) = some F64Val.nan ∧
    F64Val.inRange100 F64Val.nan = false :=
  ⟨Reach.init 0, by decide, rfl⟩

/-- Claim C9 (amended): for every cache state reachable by any sequence of
read, write, flush, empty, reset_stats and bus-message handling,
miss_count ≤ total_count holds (so the assert inside miss_percent never
fails), and whenever total_count is positive, miss_percent returns the
number (miss_count / total_count) * 100, which lies in [0, 100]; when
total_count is zero (construction, reset_stats) miss_percent returns NaN,
which is outside that range. -/
theorem claim_C9 (c : MemoryCache) (h : Reach c) :
    c.miss_count ≤ c.total_count ∧
    (0 < c.total_count →
      MemoryCache.miss_percent c =
        some (F64Val.val (((c.miss_count : ℚ) / (c.total_count : ℚ)) * 100)) ∧
      0 ≤ ((c.miss_count : ℚ) / (c.total_count : ℚ)) * 100 ∧
      ((c.miss_count : ℚ) / (c.total_count : ℚ)) * 100 ≤ 100) := by
  have hinv : c.miss_count ≤ c.total_count := by
    induction h with
    | init id => simp [mkCache]
    | handle hr heq ih =>
      have hi := handle_inv _ _ _ _ heq
      rw [hi.1, hi.2.1]
      exact ih
    | flush_step hr ih =>
      rw [(flush_counters _).1, (flush_counters _).2.1]
      exact ih
    | empty_step hr ih =>
      show (MemoryCache.empty _).1.miss_count ≤ (MemoryCache.empty _).1.total_count
      simp only [MemoryCache.empty]
      rw [(flush_counters _).1, (flush_counters _).2.1]
      exact ih
    | reset_step hr ih => simp [MemoryCache.reset_stats]
    | read_step hr heq ih =>
      have hi := read_inv _ _ _ _ _ _ _ _ _ heq
      rcases hi.2.1 with hm | hm <;> omega
    | write_step hr heq ih =>
      have hi := write_inv _ _ _ _ _ _ _ _ _ heq
      rcases hi.2.1 with hm | hm <;> omega
  refine ⟨hinv, ?_⟩
  intro ht
  have htq : (0 : ℚ) < (c.total_count : ℚ) := by exact_mod_cast ht
  have hmq : (0 : ℚ) ≤ (c.miss_count : ℚ) := by positivity
  have hq1 : (c.miss_count : ℚ) / (c.total_count : ℚ) ≤ 1 :=
    (div_le_one htq).mpr (by exact_mod_cast hinv)
  have hq0 : (0 : ℚ) ≤ (c.miss_count : ℚ) / (c.total_count : ℚ) :=
    div_nonneg hmq (le_of_lt htq)
  refine ⟨?_, by positivity, ?_⟩
  · unfold MemoryCache.miss_percent fdivNat fmul100
    rw [if_pos hinv, if_neg (by omega : ¬ c.total_count = 0)]
  · calc ((c.miss_count : ℚ) / (c.total_count : ℚ)) * 100
        ≤ 1 * 100 := by
          exact mul_le_mul_of_nonneg_right hq1 (by norm_num)
      _ = 100 := by norm_num

/-- Claim C9 (witness): the reachable state after one missing read from
spawn has miss_count 1 ≤ total_count 1 and miss_percent (1/1) * 100 = 100,
inside the range. -/
theorem claim_C9_witness :
    c9w.miss_count ≤ c9w.total_count ∧
    MemoryCache.miss_percent c9w = some (F64Val.val 100) ∧
    F64Val.inRange100 (F64Val.val 100) = true := by
  have h := claim_C9 c9w (Reach.read_step (Reach.init 0)
    (by decide : MemoryCache.read (mkCache 0) []
      [BusMessage.ReadRequest 0 0,
       BusMessage.ReadResponse 0 ResponseSender.MainMemory 0 (some z32)] 1 0 =
      some (0, c9w, [BusMessage.ReadRequest 0 0], [])))
  refine ⟨h.1, ?_, by decide⟩
  exact ((h.2 (by decide)).1).trans (by norm_num [c9w])

/-- Claim C1: for every cache and every snooped ReadRequest or
ReadExclusiveRequest from a different cache (who ≠ self): on a ReadRequest
with the line Modified the cache emits the WriteRequest with the line data
strictly before the ReadResponse from Cache, and the line becomes Shared;
with the line Exclusive or Shared it emits only the ReadResponse and the
line becomes Shared; on a ReadExclusiveRequest with the line Modified it
emits the WriteRequest and the line becomes Invalid, and with the line
Exclusive or Shared it becomes Invalid with no message; with the line
Invalid the state is unchanged and nothing is emitted (the entry is only
refreshed in recency), and with the block absent the cache is unchanged
entirely. -/
theorem claim_C1 (c : MemoryCache) (who blk : Nat) (hw : who ≠ c.id) :
    (∀ line : CacheLine, lruLookup c.cached_lines blk = some line →
      (line.state = MesiState.Modified →
        MemoryCache.handle_bus_message c (BusMessage.ReadRequest who blk) =
          some ({ c with
                    cached_lines := lruUpdate c.cached_lines blk { line with state := MesiState.Shared } },
            [BusMessage.WriteRequest blk line.data,
             BusMessage.ReadResponse who ResponseSender.Cache blk (some line.data)]) ∧
        MemoryCache.handle_bus_message c (BusMessage.ReadExclusiveRequest who blk) =
          some ({ c with
                    cached_lines := lruUpdate c.cached_lines blk { line with state := MesiState.Invalid } },
            [BusMessage.WriteRequest blk line.data])) ∧
      (line.state = MesiState.Exclusive ∨ line.state = MesiState.Shared →
        MemoryCache.handle_bus_message c (BusMessage.ReadRequest who blk) =
          some ({ c with
                    cached_lines := lruUpdate c.cached_lines blk { line with state := MesiState.Shared } },
            [BusMessage.ReadResponse who ResponseSender.Cache blk (some line.data)]) ∧
        MemoryCache.handle_bus_message c (BusMessage.ReadExclusiveRequest who blk) =
          some ({ c with
                    cached_lines := lruUpdate c.cached_lines blk { line with state := MesiState.Invalid } },
            [])) ∧
      (line.state = MesiState.Invalid →
        MemoryCache.handle_bus_message c (BusMessage.ReadRequest who blk) =
          some ({ c with cached_lines := lruTouch c.cached_lines blk }, []) ∧
        MemoryCache.handle_bus_message c (BusMessage.ReadExclusiveRequest who blk) =
          some ({ c with cached_lines := lruTouch c.cached_lines blk }, []) ∧
        lruLookup (lruTouch c.cached_lines blk) blk = some line)) ∧
    (lruLookup c.cached_lines blk = none →
      MemoryCache.handle_bus_message c (BusMessage.ReadRequest who blk) = some (c, []) ∧
      MemoryCache.handle_bus_message c (BusMessage.ReadExclusiveRequest who blk) =
        some (c, [])) := by
  constructor
  · intro line hlk
    have htch : lruTouch c.cached_lines blk = (blk, line) :: lruRemove c.cached_lines blk := by
      simp [lruTouch, hlk]
    refine ⟨?_, ?_, ?_⟩
    · intro hm
      constructor
      · simp [MemoryCache.handle_bus_message, hw, MemoryCache.snoopReadRequest, hlk, hm]
      · simp [MemoryCache.handle_bus_message, hw,
          MemoryCache.snoopReadExclusiveRequest, hlk, hm]
    · intro hes
      rcases hes with hst | hst
      · constructor
        · simp [MemoryCache.handle_bus_message, hw, MemoryCache.snoopReadRequest, hlk, hst]
        · simp [MemoryCache.handle_bus_message, hw,
            MemoryCache.snoopReadExclusiveRequest, hlk, hst]
      · constructor
        · simp [MemoryCache.handle_bus_message, hw, MemoryCache.snoopReadRequest, hlk, hst]
        · simp [MemoryCache.handle_bus_message, hw,
            MemoryCache.snoopReadExclusiveRequest, hlk, hst]
    · intro hst
      have heta : { line with state := MesiState.Invalid } = line := by
        rw [← hst]
      refine ⟨?_, ?_, ?_⟩
      · simp [MemoryCache.handle_bus_message, hw, MemoryCache.snoopReadRequest, hlk, hst,
          htch, heta, lruUpdate]
      · simp [MemoryCache.handle_bus_message, hw,
          MemoryCache.snoopReadExclusiveRequest, hlk, hst, htch, heta, lruUpdate]
      · simp [htch, lruLookup]
  · intro hlk
    constructor
    · simp [MemoryCache.handle_bus_message, hw, MemoryCache.snoopReadRequest, hlk]
    · simp [MemoryCache.handle_bus_message, hw,
        MemoryCache.snoopReadExclusiveRequest, hlk]

/-- Claim C1 (witness): snooping a ReadRequest from cache 1 on a cache
holding block 5 Modified first writes back, then responds from Cache, and
demotes the line to Shared. -/
theorem claim_C1_witness :
    MemoryCache.handle_bus_message c1w (BusMessage.ReadRequest 1 5) =
      some (MemoryCache.mk 0 0 0 [(5, CacheLine.mk MesiState.Shared z32)],
        [BusMessage.WriteRequest 5 z32,
         BusMessage.ReadResponse 1 ResponseSender.Cache 5 (some z32)]) := by
  have h := ((claim_C1 c1w 1 5 (by decide)).1
    (CacheLine.mk MesiState.Modified z32) (by decide)).1 rfl
  exact h.1.trans (by decide)

/-- Claim C3: for every write whose target block is present after draining
the backlog: with the line Modified or Exclusive, the line becomes Modified
with the byte stored and the write returns without emitting any message of
its own (out0 is only what the backlog handling sent) and without touching
the incoming stream; with the line Shared, the write emits exactly one
ReadExclusiveRequest, transitions the line to Modified, stores the byte,
and returns with the incoming stream untouched — it does not await the
ReadExclusiveResponse. -/
theorem claim_C3 (c : MemoryCache) (backlog incoming : List BusMessage)
    (fuel addr v : Nat) (c2 : MemoryCache) (out0 : List BusMessage) (line : CacheLine)
    (hb : MemoryCache.snoop_backlog { c with total_count := c.total_count + 1 } backlog =
      some (c2, out0))
    (hl : lruLookup c2.cached_lines (Block.for_addr addr) = some line) :
    (line.state = MesiState.Modified ∨ line.state = MesiState.Exclusive →
      MemoryCache.write c backlog incoming fuel addr v =
        some ({ c2 with
                cached_lines := lruUpdate c2.cached_lines (Block.for_addr addr)
                  { state := MesiState.Modified,
                    data := line.data.set (addr % BLOCK_SIZE) v } },
          out0, incoming)) ∧
    (line.state = MesiState.Shared →
      MemoryCache.write c backlog incoming fuel addr v =
        some ({ c2 with
                cached_lines := lruUpdate c2.cached_lines (Block.for_addr addr)
                  { state := MesiState.Modified,
                    data := line.data.set (addr % BLOCK_SIZE) v } },
          out0 ++ [BusMessage.ReadExclusiveRequest c2.id (Block.for_addr addr)],
          incoming)) := by
  simp only [MemoryCache.write, hb, hl]
  constructor
  · intro hst
    rcases hst with hst | hst <;>
      simp [hst, CacheLine.write_byte]
  · intro hst
    simp [hst, CacheLine.write_byte]

/-- Claim C3 (witness): writing byte 7 to address 33 on a cache holding
block 1 Shared (empty backlog, one unrelated pending incoming message)
emits exactly one ReadExclusiveRequest, stores the byte with the line
Modified, and leaves the incoming stream untouched. -/
theorem claim_C3_witness :
    MemoryCache.write cw3 [] [BusMessage.WriteRequest 9 z32] 0 33 7 =
      some (MemoryCache.mk 0 0 1 [(1, CacheLine.mk MesiState.Modified (z32.set 1 7))],
        [BusMessage.ReadExclusiveRequest 0 1], [BusMessage.WriteRequest 9 z32]) := by
  have h := (claim_C3 cw3 [] [BusMessage.WriteRequest 9 z32] 0 33 7
    (MemoryCache.mk 0 0 1 [(1, CacheLine.mk MesiState.Shared z32)]) []
    (CacheLine.mk MesiState.Shared z32) (by decide) (by decide)).2 rfl
  exact h.trans (by decide)
